import Mathlib

/-!
# Verification of the CodeTour AI generation pipeline

A shallow embedding, in Lean 4, of the structural-analysis and batch-synthesis
pipeline of the `codetour_ai` VS Code extension:

* the step Validator/Repairer (`TourGenerator.validateAndRefineSteps`,
  `TourGenerator.findSimilarFile` in `src/generator/tour-generator.ts`),
* the defensive step parser (`BatchTourGenerator.parseStepsFromResponse`),
* the batch orchestrator (`BatchTourGenerator.generateTourInBatches`,
  `generateBatchWithTimeout`, `createFileBatches`, `filterImportantFiles`),
* the welcome-page synthesizer (`BatchTourGenerator.generateWelcomePage`,
  `cleanReadmeContent`),
* the TreeSitter element extraction (`TreeSitterAnalyzer.extractElements`,
  `nodeToElement`, `isMethodNode`),
* the regex fallback analyzer (`TreeSitterAnalyzer.analyzeFileRegex`), and
* file discovery and prioritization (`TreeSitterAnalyzer.analyzeProject`,
  `prioritizeFiles`).

External collaborators (the VS Code workspace API, the LLM endpoint, the
`JSON.parse` builtin, the tree-sitter parser runtime) are modelled at their
interfaces: file lists, response texts and syntax trees are inputs, and a
service call outcome is an `Except String String` (the thrown message or the
response content), matching `LLMService.generateCompletion` which either
returns a `{content}` object or throws.

JavaScript strings are modelled as Lean `String` (the sources only manipulate
them at character granularity), JavaScript numbers occurring in the modelled
code paths are integers, and thrown exceptions are `Except`/`Option` failures.
-/

/-! ## Basic string helpers (JS `includes`, `split`, `toLowerCase`, ...) -/

/-- JS `haystack.includes(needle)` on char lists: `pat` occurs contiguously in `hay`. -/
def listHasInfix (hay pat : List Char) : Bool :=
  pat.isPrefixOf hay ||
    match hay with
    | [] => false
    | _ :: t => listHasInfix t pat

/-- JS `s.includes(pat)`. -/
def strContains (s pat : String) : Bool :=
  listHasInfix s.toList pat.toList

/-- JS `s.startsWith(pat)`. -/
def strStarts (s pat : String) : Bool :=
  pat.toList.isPrefixOf s.toList

/-- JS `[...new Set(xs)]`: deduplicate keeping first occurrences, preserving order. -/
def dedupFirstAux (seen : List String) : List String → List String
  | [] => []
  | x :: xs => if x ∈ seen then dedupFirstAux seen xs else x :: dedupFirstAux (x :: seen) xs

/-- JS `[...new Set(xs)]`. -/
def dedupFirst (xs : List String) : List String :=
  dedupFirstAux [] xs

/-- JS `s.toLowerCase()` (the sources only lowercase ASCII path and title text). -/
def strToLower (s : String) : String :=
  String.mk (s.toList.map Char.toLower)

/-- Splitting on a one-character separator, accumulator form. -/
def splitOnCharAux (sep : Char) : List Char → List Char → List (List Char)
  | [], acc => [acc.reverse]
  | c :: rest, acc =>
    if c = sep then acc.reverse :: splitOnCharAux sep rest []
    else splitOnCharAux sep rest (c :: acc)

/-- JS `s.split(sep)` for a one-character separator (the sources split only on
`"/"` and `"\n"`); like JS split, the result is never the empty list. -/
def jsSplit (s : String) (sep : Char) : List String :=
  (splitOnCharAux sep s.toList []).map String.mk

/-- JS `path.split("/").pop()`: the last `/`-separated component. -/
def lastPathComponent (p : String) : String :=
  (jsSplit p '/').getLastD ""

/-! ## JSON values and a model of the `JSON.parse` builtin

`JSON.parse` is a JavaScript platform builtin, not repository code; it is
modelled here as a recursive-descent parser over the JSON grammar fragment the
pipeline exchanges (null / booleans / integer numbers / strings with the common
escapes / arrays / objects with last-duplicate-wins keys, surrounded by
whitespace).  Fractional and exponent number forms are not modelled; no claim
exercises them. -/

inductive JsonVal where
  | null : JsonVal
  | bool (b : Bool) : JsonVal
  | num (n : Int) : JsonVal
  | str (s : String) : JsonVal
  | arr (elems : List JsonVal) : JsonVal
  | obj (fields : List (String × JsonVal)) : JsonVal

/-- JSON insignificant whitespace. -/
def jsonWs (c : Char) : Bool :=
  c = ' ' || c = '\n' || c = '\t' || c = '\r'

/-- Drop leading JSON whitespace. -/
def skipWs : List Char → List Char
  | [] => []
  | c :: rest => if jsonWs c then skipWs rest else c :: rest

/-- Accumulate a run of decimal digits. -/
def parseDigitsAux (acc : Nat) : List Char → Nat × List Char
  | [] => (acc, [])
  | c :: rest =>
    if c.isDigit then parseDigitsAux (acc * 10 + (c.toNat - 48)) rest else (acc, c :: rest)

/-- Parse a JSON integer numeral (optional minus sign, then digits). -/
def parseJsonNum : List Char → Option (Int × List Char)
  | '-' :: c :: rest =>
    if c.isDigit then
      let p := parseDigitsAux (c.toNat - 48) rest
      some (-(p.1 : Int), p.2)
    else none
  | c :: rest =>
    if c.isDigit then
      let p := parseDigitsAux (c.toNat - 48) rest
      some ((p.1 : Int), p.2)
    else none
  | [] => none

/-- Value of a hexadecimal digit. -/
def hexVal (c : Char) : Option Nat :=
  if c.isDigit then some (c.toNat - 48)
  else if 'a' ≤ c && c ≤ 'f' then some (c.toNat - 87)
  else if 'A' ≤ c && c ≤ 'F' then some (c.toNat - 55)
  else none

/-- Parse the body of a JSON string after the opening quote; returns the
decoded characters and the remaining input after the closing quote. -/
def parseJsonStrAux : List Char → Option (List Char × List Char)
  | [] => none
  | '"' :: rest => some ([], rest)
  | '\\' :: 'u' :: a :: b :: c :: d :: rest =>
    match hexVal a, hexVal b, hexVal c, hexVal d with
    | some x, some y, some z, some w =>
      (parseJsonStrAux rest).map fun p =>
        (Char.ofNat (((x * 16 + y) * 16 + z) * 16 + w) :: p.1, p.2)
    | _, _, _, _ => none
  | '\\' :: e :: rest =>
    let esc : Option Char :=
      if e = '"' then some '"'
      else if e = '\\' then some '\\'
      else if e = '/' then some '/'
      else if e = 'n' then some '\n'
      else if e = 't' then some '\t'
      else if e = 'r' then some '\r'
      else if e = 'b' then some (Char.ofNat 8)
      else if e = 'f' then some (Char.ofNat 12)
      else none
    match esc with
    | some ch => (parseJsonStrAux rest).map fun p => (ch :: p.1, p.2)
    | none => none
  | c :: rest => (parseJsonStrAux rest).map fun p => (c :: p.1, p.2)

/-- JS object property assignment on an association list: overwrite the value
at the first existing binding of `k` (keeping its position), else append. -/
def insertKV (fields : List (String × JsonVal)) (k : String) (v : JsonVal) :
    List (String × JsonVal) :=
  match fields with
  | [] => [(k, v)]
  | (k', v') :: rest =>
    if k' = k then (k', v) :: rest else (k', v') :: insertKV rest k v

mutual

/-- Parse one JSON value (fuel-bounded recursive descent). -/
def parseJsonValue : Nat → List Char → Option (JsonVal × List Char)
  | 0, _ => none
  | fuel + 1, cs =>
    match skipWs cs with
    | 't' :: 'r' :: 'u' :: 'e' :: r => some (.bool true, r)
    | 'f' :: 'a' :: 'l' :: 's' :: 'e' :: r => some (.bool false, r)
    | 'n' :: 'u' :: 'l' :: 'l' :: r => some (.null, r)
    | '"' :: r => (parseJsonStrAux r).map fun p => (.str (String.mk p.1), p.2)
    | '[' :: r =>
      (match skipWs r with
       | ']' :: r2 => some (.arr [], r2)
       | _ => parseJsonItems fuel r [])
    | '{' :: r =>
      (match skipWs r with
       | '}' :: r2 => some (.obj [], r2)
       | _ => parseJsonMembers fuel r [])
    | other => (parseJsonNum other).map fun p => (.num p.1, p.2)

/-- Parse the remaining items of a non-empty JSON array. -/
def parseJsonItems : Nat → List Char → List JsonVal → Option (JsonVal × List Char)
  | 0, _, _ => none
  | fuel + 1, cs, acc =>
    match parseJsonValue fuel cs with
    | none => none
    | some (v, r) =>
      match skipWs r with
      | ',' :: r2 => parseJsonItems fuel r2 (acc ++ [v])
      | ']' :: r2 => some (.arr (acc ++ [v]), r2)
      | _ => none

/-- Parse the remaining members of a non-empty JSON object. -/
def parseJsonMembers : Nat → List Char → List (String × JsonVal) →
    Option (JsonVal × List Char)
  | 0, _, _ => none
  | fuel + 1, cs, acc =>
    match skipWs cs with
    | '"' :: r =>
      match parseJsonStrAux r with
      | none => none
      | some (key, r2) =>
        match skipWs r2 with
        | ':' :: r3 =>
          match parseJsonValue fuel r3 with
          | none => none
          | some (v, r4) =>
            match skipWs r4 with
            | ',' :: r5 => parseJsonMembers fuel r5 (insertKV acc (String.mk key) v)
            | '}' :: r5 => some (.obj (insertKV acc (String.mk key) v), r5)
            | _ => none
        | _ => none
    | _ => none

end

/-- Model of the `JSON.parse` builtin: parse one value and require only
whitespace to remain, else fail (JS throws a `SyntaxError`, modelled as `none`). -/
def JsonVal.parse (s : String) : Option JsonVal :=
  match parseJsonValue (2 * s.length + 4) s.toList with
  | some (j, rest) => if skipWs rest = [] then some j else none
  | none => none

/-! ## `BatchTourGenerator.parseStepsFromResponse`

The source extracts with `response.match(/\[[\s\S]*\]/)`: the leftmost match of
that regex starts at the first `[` of the text and, because `[\s\S]*` is
greedy, ends at the last `]` of the text (there is a match exactly when some
`]` occurs after the first `[`).  `extractJsonArray` below implements exactly
that; `parseStepsInner` is the body of the `try` block (each `throw` and the
`JSON.parse` failure become `Except.error`), and `parseStepsFromResponse` is
the whole function with its `catch` returning `[]`. -/

/-- The input after the first `[` (JS regex scanning for the leftmost match of
a pattern that must begin with a literal `[`). -/
def afterFirstLbrack : List Char → Option (List Char)
  | [] => none
  | c :: rest => if c = '[' then some rest else afterFirstLbrack rest

/-- The prefix of the input up to and including its last `]` (the greedy
`[\s\S]*\]` tail of the regex); `none` when no `]` occurs. -/
def cutAtLastRbrack : List Char → Option (List Char)
  | [] => none
  | c :: rest =>
    match cutAtLastRbrack rest with
    | some tail => some (c :: tail)
    | none => if c = ']' then some [c] else none

/-- Model of `response.match(/\[[\s\S]*\]/)`: the substring from the first `[`
of the response through the last `]` of the response, when the latter follows
the former. -/
def extractJsonArray (response : String) : Option String :=
  (afterFirstLbrack response.toList).bind fun rest =>
    (cutAtLastRbrack rest).map fun body => String.mk ('[' :: body)

/-- The `try` block of `parseStepsFromResponse`: no regex match, a `JSON.parse`
failure, and a non-array parse result each throw. -/
def parseStepsInner (response : String) : Except String (List JsonVal) :=
  match extractJsonArray response with
  | none => .error "No JSON array found in response"
  | some s =>
    match JsonVal.parse s with
    | none => .error "JSON parse failure"
    | some (.arr steps) => .ok steps
    | some _ => .error "Response is not an array"

/-- `BatchTourGenerator.parseStepsFromResponse`: the `try` block with its
`catch` clause returning the empty step list, so the function never throws to
its caller.  The parsed JSON values are returned as the step list (the source
casts them to `GeneratedTourStep[]` without field validation). -/
def parseStepsFromResponse (response : String) : List JsonVal :=
  match parseStepsInner response with
  | .ok steps => steps
  | .error _ => []

/-- Modelled from the spec: the extraction the specification describes — the
*first syntactically balanced* `[...]` array literal of the text (bracket
counting from the first `[`), not the greedy first-`[`-to-last-`]` substring
the code takes.  Used only to compare the code against the claim's wording. -/
def extractBalancedArray (response : String) : Option String :=
  (afterFirstLbrack response.toList).bind fun rest =>
    (balancedBody rest 0 []).map fun body => String.mk ('[' :: body)
where
  /-- Scan until the `]` matching the opening bracket at nesting depth 0. -/
  balancedBody : List Char → Nat → List Char → Option (List Char)
    | [], _, _ => none
    | c :: rest, depth, acc =>
      if c = ']' then
        if depth = 0 then some (acc.reverse ++ [']'])
        else balancedBody rest (depth - 1) (c :: acc)
      else if c = '[' then balancedBody rest (depth + 1) (c :: acc)
      else balancedBody rest depth (c :: acc)

/-- Modelled from the spec: the parsing contract as the specification words it
(first balanced array, parse failure or non-array gives the empty list). -/
def parseStepsSpec (response : String) : List JsonVal :=
  match extractBalancedArray response with
  | none => []
  | some s =>
    match JsonVal.parse s with
    | some (.arr steps) => steps
    | _ => []

/-! ## Data model: tour steps, file analyses, project structure

From `src/generator/tour-generator.ts` (`GeneratedTourStep`, `CodeTourStep`)
and the treesitter-analyzer module (`CodeElement`, `FileAnalysis`,
`ProjectStructure`).  Optional TS fields are `Option`; a `selection` is carried
opaquely through the validator. -/

/-- One endpoint of a selection range (`{ line, character }`). -/
structure SelPos where
  line : Int
  character : Int

/-- A step's selection range; the source fields are `start` and `end` (`end`
is a Lean keyword, rendered `stop`). -/
structure Selection where
  start : SelPos
  stop : SelPos

/-- `GeneratedTourStep` (untrusted step shape produced by the LLM layer). -/
structure GeneratedTourStep where
  title : String
  file : String
  line : Option Int
  description : String
  selection : Option Selection

/-- `CodeTourStep` as the validator populates it (only these fields are set). -/
structure CodeTourStep where
  title : String
  file : String
  description : String
  line : Option Int
  selection : Option Selection

/-- The `CodeElement.type` string union `"class" | "function" |
"async function" | "method" | "interface" | "enum" | "variable" | "import"`. -/
inductive CEKind where
  | cls
  | fn
  | asyncFn
  | method
  | intf
  | enm
  | varDecl
  | imp
deriving DecidableEq, Repr

/-- `CodeElement`: a structural unit found in a file (`line`/`endLine` are
1-based; `children` holds methods nested under a class). -/
inductive CodeElement where
  | mk (type : CEKind) (name : String) (file : String) (line : Nat) (endLine : Nat)
      (children : List CodeElement)

/-- Field accessor. -/
def CodeElement.type : CodeElement → CEKind
  | .mk t _ _ _ _ _ => t

/-- Field accessor. -/
def CodeElement.name : CodeElement → String
  | .mk _ n _ _ _ _ => n

/-- Field accessor. -/
def CodeElement.file : CodeElement → String
  | .mk _ _ f _ _ _ => f

/-- Field accessor. -/
def CodeElement.line : CodeElement → Nat
  | .mk _ _ _ l _ _ => l

/-- Field accessor. -/
def CodeElement.endLine : CodeElement → Nat
  | .mk _ _ _ _ e _ => e

/-- Field accessor. -/
def CodeElement.children : CodeElement → List CodeElement
  | .mk _ _ _ _ _ cs => cs

/-- `FileAnalysis`: one file's analysis result. -/
structure FileAnalysis where
  file : String
  language : String
  elements : List CodeElement
  imports : List String
  exports : List String

/-- `ProjectStructure` (the dependency map is an association list, as produced
by `buildDependencyGraph`). -/
structure ProjectStructure where
  rootPath : String
  files : List FileAnalysis
  entryPoints : List String
  dependencies : List (String × List String)

/-! ## The Validator/Repairer (`TourGenerator.validateAndRefineSteps`) -/

/-- `structure.files.some(f => f.file === p)`: membership of a path in the
analyzed file set. -/
def fileExistsIn (files : List FileAnalysis) (p : String) : Bool :=
  files.any fun f => f.file = p

/-- `TourGenerator.findSimilarFile`: first analyzed file whose lowercased
basename equals the target's lowercased basename. -/
def findSimilarFile (targetFile : String) (files : List FileAnalysis) : Option String :=
  let targetName := strToLower (lastPathComponent targetFile)
  match files.find? (fun f => strToLower (lastPathComponent f.file) = targetName) with
  | some f => some f.file
  | none => none

/-- The welcome exemption test `i === 0 && step.title?.includes('Welcome')`. -/
def isWelcomeStep (i : Nat) (step : GeneratedTourStep) : Bool :=
  i == 0 && strContains step.title "Welcome"

/-- The body of the validation loop for the step at index `i`: resolve the
file (exempt, present, basename-remapped, or dropped), then apply the
truthiness-guarded line clamp, then build the emitted `CodeTourStep`.
`none` models the `continue` that drops the step.  The JS truthiness guard
`if (step.line)` is `some n` with `n ≠ 0`. -/
def validateStep (st : ProjectStructure) (i : Nat) (step : GeneratedTourStep) :
    Option CodeTourStep :=
  let fileResult : Option String :=
    if isWelcomeStep i step then some step.file
    else if fileExistsIn st.files step.file then some step.file
    else findSimilarFile step.file st.files
  match fileResult with
  | none => none
  | some file =>
    let line : Option Int :=
      match step.line with
      | none => none
      | some n =>
        if n ≠ 0 then
          if fileExistsIn st.files file && n < 1 then some 1 else some n
        else none
    some { title := step.title, file := file, description := step.description,
           line := line, selection := step.selection }

/-- The `for` loop of `validateAndRefineSteps`: index-carrying traversal
pushing each surviving step. -/
def validateLoop (st : ProjectStructure) (i : Nat) : List GeneratedTourStep → List CodeTourStep
  | [] => []
  | step :: rest =>
    match validateStep st i step with
    | some t => t :: validateLoop st (i + 1) rest
    | none => validateLoop st (i + 1) rest

/-- `options.maxSteps || 20` (`0` is falsy in JS and also yields the default). -/
def maxStepsOrDefault : Option Nat → Nat
  | none => 20
  | some 0 => 20
  | some n => n

/-- `TourGenerator.validateAndRefineSteps`: validate the first
`options.maxSteps || 20` generated steps in order. -/
def validateAndRefineSteps (steps : List GeneratedTourStep) (st : ProjectStructure)
    (maxSteps? : Option Nat) : List CodeTourStep :=
  validateLoop st 0 (steps.take (maxStepsOrDefault maxSteps?))

/-! ## TreeSitter element extraction (`TreeSitterAnalyzer.extractElements`)

The tree-sitter runtime is external; a parsed syntax tree is modelled as an
`SNode` carrying what the source reads off a `Parser.SyntaxNode`: the node
`type` string, the field label the node occupies under its parent (for
`childForFieldName`), 0-based start/end rows, the node's source text (for
`content.substring(node.startIndex, node.endIndex)`), and the child list.
`SNode`/`SNodeList` are mutually inductive so that every traversal below is
structural.  The mutable `traverse` of the source is rendered as a pure
function returning the pair (elements pushed top-level, elements pushed into
the enclosing class element's `children`). -/

mutual

/-- A tree-sitter syntax node, as the analyzer consumes it. -/
inductive SNode where
  | mk (type : String) (field : Option String) (startRow : Nat) (endRow : Nat)
      (text : String) (children : SNodeList)

/-- A tree-sitter child list. -/
inductive SNodeList where
  | nil : SNodeList
  | cons (head : SNode) (tail : SNodeList) : SNodeList

end

/-- Build a child list from a Lean list (convenience for concrete trees). -/
def SNodeList.ofList : List SNode → SNodeList
  | [] => .nil
  | n :: rest => .cons n (SNodeList.ofList rest)

/-- Field accessor. -/
def SNode.type : SNode → String
  | .mk t _ _ _ _ _ => t

/-- Field accessor. -/
def SNode.field : SNode → Option String
  | .mk _ f _ _ _ _ => f

/-- Field accessor (`node.startPosition.row`). -/
def SNode.startRow : SNode → Nat
  | .mk _ _ s _ _ _ => s

/-- Field accessor (`node.endPosition.row`). -/
def SNode.endRow : SNode → Nat
  | .mk _ _ _ e _ _ => e

/-- Field accessor (`content.substring(node.startIndex, node.endIndex)`). -/
def SNode.text : SNode → String
  | .mk _ _ _ _ tx _ => tx

/-- Field accessor. -/
def SNode.children : SNode → SNodeList
  | .mk _ _ _ _ _ cs => cs

/-- `node.childForFieldName(name)`: first child under the field label. -/
def childForFieldIn (name : String) : SNodeList → Option SNode
  | .nil => none
  | .cons c rest => if c.field = some name then some c else childForFieldIn name rest

/-- `node.childForFieldName(name)`. -/
def childForFieldName (node : SNode) (name : String) : Option SNode :=
  childForFieldIn name node.children

/-- `children.some(child => child.type === "async")`. -/
def anyAsync : SNodeList → Bool
  | .nil => false
  | .cons c rest => c.type = "async" || anyAsync rest

/-- `node.children.some(child => child.type === "async")`. -/
def hasAsyncChild (node : SNode) : Bool :=
  anyAsync node.children

/-- The `typeMap` lookup table of `nodeToElement`. -/
def typeMap (t : String) : Option CEKind :=
  if t = "class_declaration" then some .cls
  else if t = "class_definition" then some .cls
  else if t = "function_declaration" then some .fn
  else if t = "function_definition" then some .fn
  else if t = "method_definition" then some .method
  else if t = "method_declaration" then some .method
  else if t = "interface_declaration" then some .intf
  else if t = "enum_declaration" then some .enm
  else if t = "type_alias_declaration" then some .intf
  else none

/-- `TreeSitterAnalyzer.isMethodNode`; `parentType` is `node.parent?.type`
(`none` at the tree root). -/
def isMethodNode (parentType : Option String) (t : String) : Bool :=
  t = "method_definition" || t = "function_definition" ||
    (parentType = some "class_body" && (t = "function_declaration" || t = "method_declaration"))

/-- The `lexical_declaration`/`variable_declaration` branch of
`nodeToElement`: the loop over declarator children returning at the first
`variable_declarator` with both a `name` and a `value` field
(function-literal values become functions, async when an `async` token is
among the value's children; otherwise a variable); positions come from the
outer declaration node. -/
def declaratorDig (filePath : String) (startLine endLine : Nat) : SNodeList → Option CodeElement
  | .nil => none
  | .cons child rest =>
    if child.type = "variable_declarator" then
      match childForFieldName child "name", childForFieldName child "value" with
      | some nameNode, some valueNode =>
        let name := nameNode.text
        if valueNode.type = "arrow_function" || valueNode.type = "function" ||
            valueNode.type = "function_expression" then
          some (.mk (if hasAsyncChild valueNode then .asyncFn else .fn) name filePath
            startLine endLine [])
        else
          some (.mk .varDecl name filePath startLine endLine [])
      | _, _ => declaratorDig filePath startLine endLine rest
    else declaratorDig filePath startLine endLine rest

mutual

/-- `TreeSitterAnalyzer.nodeToElement`: the `typeMap` branch, the
lexical/variable declaration branch, and the `export_statement` branch
(return the recursion on the first child that is a lexical/variable/function/
class declaration). -/
def nodeToElement (node : SNode) (filePath : String) : Option CodeElement :=
  match node with
  | .mk t _ sRow eRow _ cs =>
    match typeMap t with
    | some elementType =>
      let name := match childForFieldIn "name" cs with
        | some nameNode => nameNode.text
        | none => "anonymous"
      let isAsync := anyAsync cs
      let finalType := if isAsync && elementType = .fn then .asyncFn else elementType
      some (.mk finalType name filePath (sRow + 1) (eRow + 1) [])
    | none =>
      if t = "lexical_declaration" || t = "variable_declaration" then
        declaratorDig filePath (sRow + 1) (eRow + 1) cs
      else if t = "export_statement" then exportDig filePath cs
      else none

/-- The `export_statement` loop of `nodeToElement`: return
`nodeToElement(child)` for the first child that is a lexical/variable
declaration or a function/class declaration. -/
def exportDig (filePath : String) : SNodeList → Option CodeElement
  | .nil => none
  | .cons c rest =>
    if c.type = "lexical_declaration" || c.type = "variable_declaration" ||
        c.type = "function_declaration" || c.type = "class_declaration" then
      nodeToElement c filePath
    else exportDig filePath rest

end

/-- Replace an element's `children` (the source mutates
`parent.children.push(...)`; the pure rendering rebuilds the class element
with the accumulated child list). -/
def CodeElement.withChildren : CodeElement → List CodeElement → CodeElement
  | .mk t n f l e _, cs => .mk t n f l e cs

mutual

/-- The `traverse` closure of `extractElements`, rendered pure: given whether
an enclosing class element exists (`hasParent`, the `parent &&` guard) and the
tree parent's node type (for `isMethodNode`), return the pair
(elements pushed to the top level, elements pushed into the enclosing class
element's `children`), in push order.  A class element recurses into its
children with itself as the enclosing class and returns; any other node
recurses with the unchanged enclosing class. -/
def extractFrom (hasParent : Bool) (parentType : Option String) (filePath : String) :
    SNode → List CodeElement × List CodeElement
  | .mk t f sRow eRow tx cs =>
    match nodeToElement (.mk t f sRow eRow tx cs) filePath with
    | some el =>
      if el.type = .cls then
        let sub := extractFromList true (some t) filePath cs
        let el' := el.withChildren sub.2
        if hasParent && isMethodNode parentType t then (sub.1, [el'])
        else (el' :: sub.1, [])
      else
        let sub := extractFromList hasParent (some t) filePath cs
        if hasParent && isMethodNode parentType t then (sub.1, el :: sub.2)
        else (el :: sub.1, sub.2)
    | none => extractFromList hasParent (some t) filePath cs

/-- `extractFrom` over a child list, concatenating both output lists in order. -/
def extractFromList (hasParent : Bool) (parentType : Option String) (filePath : String) :
    SNodeList → List CodeElement × List CodeElement
  | .nil => ([], [])
  | .cons n rest =>
    let a := extractFrom hasParent parentType filePath n
    let b := extractFromList hasParent parentType filePath rest
    (a.1 ++ b.1, a.2 ++ b.2)

end

/-- `TreeSitterAnalyzer.extractElements`: traverse from the root with no
enclosing class and no parent node. -/
def extractElements (root : SNode) (filePath : String) : List CodeElement :=
  (extractFrom false none filePath root).1

/-- JS `text.trim()`. -/
def strTrim (s : String) : String :=
  String.mk (((s.toList.dropWhile Char.isWhitespace).reverse.dropWhile
    Char.isWhitespace).reverse)

mutual

/-- `TreeSitterAnalyzer.extractImports`: collect the trimmed text of every
node whose type string contains `"import"`, in traversal order. -/
def extractImports (node : SNode) : List String :=
  match node with
  | .mk t _ _ _ tx cs =>
    (if strContains t "import" then [strTrim tx] else []) ++ extractImportsList cs

/-- `extractImports` over a child list. -/
def extractImportsList : SNodeList → List String
  | .nil => []
  | .cons n rest => extractImports n ++ extractImportsList rest

end

mutual

/-- `TreeSitterAnalyzer.extractExports`: collect the trimmed text of every
node whose type string contains `"export"`, in traversal order. -/
def extractExports (node : SNode) : List String :=
  match node with
  | .mk t _ _ _ tx cs =>
    (if strContains t "export" then [strTrim tx] else []) ++ extractExportsList cs

/-- `extractExports` over a child list. -/
def extractExportsList : SNodeList → List String
  | .nil => []
  | .cons n rest => extractExports n ++ extractExportsList rest

end

/-- The grammar path of `TreeSitterAnalyzer.analyzeFile`: the `FileAnalysis`
built after a successful tree-sitter parse (the parse itself is the external
runtime; its result tree is the input here). -/
def analyzeFileTS (root : SNode) (filePath : String) (languageId : String) : FileAnalysis :=
  { file := filePath, language := languageId,
    elements := extractElements root filePath,
    imports := extractImports root,
    exports := extractExports root }

/-! ### Well-formedness and measures for the extraction claims

A real tree-sitter node never ends before it starts; `SNode.wfB` states that
row discipline for a whole tree.  `CodeElement.linesOkList` checks
`startLine <= endLine` on every element and every nested child;
`CodeElement.sizeList` counts emitted elements including nested children; and
`emittableCount` counts the syntax nodes `nodeToElement` maps to an element —
equality of the two is the no-double-counting statement: every emitting node
contributes exactly one element, either top-level or as a class child, never
both. -/

mutual

/-- Every node of the tree satisfies `startRow ≤ endRow`. -/
def SNode.wfB : SNode → Bool
  | .mk _ _ s e _ cs => decide (s ≤ e) && SNodeList.wfB cs

/-- `SNode.wfB` over a child list. -/
def SNodeList.wfB : SNodeList → Bool
  | .nil => true
  | .cons n rest => n.wfB && SNodeList.wfB rest

end

mutual

/-- `startLine ≤ endLine` for an element and, recursively, its children. -/
def CodeElement.linesOkB : CodeElement → Bool
  | .mk _ _ _ l e cs => decide (l ≤ e) && CodeElement.linesOkList cs

/-- `CodeElement.linesOkB` over a list. -/
def CodeElement.linesOkList : List CodeElement → Bool
  | [] => true
  | el :: rest => el.linesOkB && CodeElement.linesOkList rest

end

mutual

/-- Element count, nested children included. -/
def CodeElement.sizeE : CodeElement → Nat
  | .mk _ _ _ _ _ cs => 1 + CodeElement.sizeList cs

/-- `CodeElement.sizeE` summed over a list. -/
def CodeElement.sizeList : List CodeElement → Nat
  | [] => 0
  | el :: rest => el.sizeE + CodeElement.sizeList rest

end

mutual

/-- The number of nodes in the tree that `nodeToElement` maps to an element. -/
def emittableCount (filePath : String) : SNode → Nat
  | .mk t f s e tx cs =>
    (if (nodeToElement (.mk t f s e tx cs) filePath).isSome then 1 else 0) +
      emittableCountList filePath cs

/-- `emittableCount` summed over a child list. -/
def emittableCountList (filePath : String) : SNodeList → Nat
  | .nil => 0
  | .cons n rest => emittableCount filePath n + emittableCountList filePath rest

end

/-! ## Regex fallback analysis (`TreeSitterAnalyzer.analyzeFileRegex`)

The two line regexes are modelled as deterministic matchers over char lists:

* `/^(?:export\s+)?(?:abstract\s+)?class\s+(\w+)/` — the optional groups
  need no backtracking search because a string cannot both start with
  `export`/`abstract` followed by whitespace and start with the literal
  `class`, so greedy left-to-right matching is exact;
* `/^(?:public|private|protected|async|static)*\s*(\w+)\s*\([^)]*\)\s*[:=>{]/`
  — the starred modifier group is matched greedily with one-iteration-at-a-
  time back-off (regex backtracking); the tail after the star is
  deterministic by maximal munch (`[^)]*` cannot cross `)`, `\s*` cannot eat
  the following class character).

JS `\w` is `[A-Za-z0-9_]`; JS `\s` is modelled by `Char.isWhitespace` (the
sources only meet ASCII whitespace on code lines). -/

/-- JS regex `\w` class. -/
def isWordChar (c : Char) : Bool :=
  c.isAlphanum || c = '_'

/-- `\s+`: at least one whitespace character, consumed maximally. -/
def dropWsPlus : List Char → Option (List Char)
  | [] => none
  | c :: rest =>
    if c.isWhitespace then some (rest.dropWhile Char.isWhitespace) else none

/-- `(?:w\s+)`: the literal word then mandatory whitespace. -/
def stripKeywordWs (w : String) (cs : List Char) : Option (List Char) :=
  if w.toList.isPrefixOf cs then dropWsPlus (cs.drop w.toList.length) else none

/-- The class-declaration regex on a trimmed line; returns the captured name. -/
def classMatch (trimmed : String) : Option String :=
  let cs := trimmed.toList
  let cs1 := match stripKeywordWs "export" cs with
    | some r => r
    | none => cs
  let cs2 := match stripKeywordWs "abstract" cs1 with
    | some r => r
    | none => cs1
  match stripKeywordWs "class" cs2 with
  | none => none
  | some r =>
    let name := r.takeWhile isWordChar
    if name = [] then none else some (String.mk name)

/-- One iteration of `(?:public|private|protected|async|static)` (the
alternatives are not prefixes of one another, so at most one applies). -/
def stripModifier (cs : List Char) : Option (List Char) :=
  if "public".toList.isPrefixOf cs then some (cs.drop 6)
  else if "private".toList.isPrefixOf cs then some (cs.drop 7)
  else if "protected".toList.isPrefixOf cs then some (cs.drop 9)
  else if "async".toList.isPrefixOf cs then some (cs.drop 5)
  else if "static".toList.isPrefixOf cs then some (cs.drop 6)
  else none

/-- The deterministic tail `\s*(\w+)\s*\([^)]*\)\s*[:=>{]`; returns the
captured name. -/
def methodTail (cs : List Char) : Option String :=
  let cs := cs.dropWhile Char.isWhitespace
  let name := cs.takeWhile isWordChar
  if name = [] then none
  else
    match (cs.dropWhile isWordChar).dropWhile Char.isWhitespace with
    | '(' :: r =>
      match r.dropWhile (fun c => c ≠ ')') with
      | ')' :: r3 =>
        match r3.dropWhile Char.isWhitespace with
        | c :: _ =>
          if c = ':' || c = '=' || c = '>' || c = '{' then some (String.mk name) else none
        | [] => none
      | _ => none
    | _ => none

/-- Greedy star over the modifier group with back-off: try one more
iteration first, fall back to matching the tail here (fuel is the input
length; every iteration consumes at least five characters). -/
def methodMatchAux : Nat → List Char → Option String
  | 0, cs => methodTail cs
  | fuel + 1, cs =>
    match stripModifier cs with
    | some r =>
      match methodMatchAux fuel r with
      | some n => some n
      | none => methodTail cs
    | none => methodTail cs

/-- The method/function-call regex on a trimmed line; returns the captured name. -/
def methodMatch (trimmed : String) : Option String :=
  methodMatchAux trimmed.toList.length trimmed.toList

/-- JS `line.search(/\S/)`: index of the first non-whitespace character, `-1`
when there is none. -/
def searchNonWsAux : Nat → List Char → Int
  | _, [] => -1
  | i, c :: rest => if c.isWhitespace then searchNonWsAux (i + 1) rest else (i : Int)

/-- The mutable state of the `analyzeFileRegex` line loop.  `currentClass`
holds the open class element; it was the most recently pushed element, so the
final element list is `elements ++ currentClass.toList`. -/
structure RegexState where
  elements : List CodeElement
  currentClass : Option CodeElement
  currentIndent : Int
  imports : List String
  exports : List String

/-- The class-pattern handling of one line of `analyzeFileRegex` (the
method-pattern handling follows it on the same line; attachment to the open
class happens when strictly more indented, else the method is emitted
top-level and the class context closes; import/export collection closes each
iteration). -/
def regexClassStep (filePath : String) (trimmed : String) (indent : Int) (index : Nat)
    (s : RegexState) : RegexState :=
  match classMatch trimmed with
  | some cname =>
    { s with elements := s.elements ++ s.currentClass.toList,
             currentClass := some (.mk .cls cname filePath (index + 1) (index + 1) []),
             currentIndent := indent }
  | none => s

/-- The method-pattern handling of one line of `analyzeFileRegex`. -/
def regexMethodStep (filePath : String) (trimmed : String) (indent : Int) (index : Nat)
    (sA : RegexState) : RegexState :=
  match methodMatch trimmed with
  | some mname =>
    if strStarts trimmed "//" || strStarts trimmed "*" then sA
    else
      let method : CodeElement :=
        .mk (if strContains trimmed "async" then .asyncFn else .fn) mname filePath
          (index + 1) (index + 1) []
      match sA.currentClass with
      | some c =>
        if indent > sA.currentIndent then
          { sA with currentClass := some (c.withChildren (c.children ++ [method])) }
        else
          { sA with elements := sA.elements ++ [c, method],
                    currentClass := none }
      | none =>
        { sA with elements := sA.elements ++ [method], currentClass := none }
  | none => sA

/-- One iteration of the `lines.forEach` body of `analyzeFileRegex`. -/
def regexLineStep (filePath languageId : String) (s : RegexState) (idxLine : Nat × String) :
    RegexState :=
  let index := idxLine.1
  let line := idxLine.2
  let trimmed := strTrim line
  let indent := searchNonWsAux 0 line.toList
  let s1 :=
    if languageId = "typescript" || languageId = "javascript" then
      regexMethodStep filePath trimmed indent index
        (regexClassStep filePath trimmed indent index s)
    else s
  let s2 :=
    if strContains trimmed "import " || strContains trimmed "from " then
      { s1 with imports := s1.imports ++ [trimmed] }
    else s1
  if strStarts trimmed "export " then
    { s2 with exports := s2.exports ++ [trimmed] }
  else s2

/-- `TreeSitterAnalyzer.analyzeFileRegex`: fold the line handler over the
`"\n"`-split content and close any open class. -/
def analyzeFileRegex (filePath content languageId : String) : FileAnalysis :=
  let lines := jsSplit content '\n'
  let final := lines.enum.foldl (regexLineStep filePath languageId)
    { elements := [], currentClass := none, currentIndent := 0, imports := [], exports := [] }
  { file := filePath, language := languageId,
    elements := final.elements ++ final.currentClass.toList,
    imports := final.imports,
    exports := final.exports }

mutual

/-- `line = endLine` and 1-based positions, on an element and its children
(the fallback guarantee of C9). -/
def fallbackElemOkB : CodeElement → Bool
  | .mk _ _ _ l e cs => (l == e) && decide (1 ≤ l) && fallbackElemListOkB cs

/-- `fallbackElemOkB` over a list. -/
def fallbackElemListOkB : List CodeElement → Bool
  | [] => true
  | el :: rest => fallbackElemOkB el && fallbackElemListOkB rest

end

/-! ## Discovery and prioritization (`TreeSitterAnalyzer.analyzeProject`)

`vscode.workspace.findFiles(pattern, excludes, searchLimit)` is the external
workspace collaborator: its result is modelled as an input list `allMatches`
of workspace-relative paths — the files matching the inclusion glob and not
excluded by the glob exclusion list — to which the `searchLimit` cap
(`undefined` when `maxFiles` is 0, else `maxFiles * 3`) is applied as a
`take`.  Everything after that call is repository code and is embedded:
the second substring filter pass, `prioritizeFiles` scoring (V8's stable sort
rendered as a stable insertion sort on the descending comparator
`(a, b) => b.score - a.score`), and the final `slice(0, maxFiles)`. -/

/-- The second filter pass of `analyzeProject` (noise substrings checked on
the lowercased relative path). -/
def secondPassNoise (p : String) : Bool :=
  let rp := strToLower p
  strContains rp ".test." || strContains rp ".spec." || strContains rp "test/" ||
    strContains rp "tests/" || strContains rp "__test__" || strContains rp ".config." ||
    strContains rp "config/" || strContains rp ".generated." || strContains rp ".min."

/-- The score of `prioritizeFiles` for one relative path. -/
def fileScore (p : String) : Int :=
  let rp := strToLower p
  let s1 : Int := if strContains rp "index" || strContains rp "main" || strContains rp "app"
    then 100 else 0
  let s2 : Int := if strContains rp "src/" || strContains rp "lib/" then 50 else 0
  let s3 : Int := if strContains rp "test" || strContains rp "spec" then -50 else 0
  let depth : Int := ((jsSplit rp '/').length : Int)
  let s5 : Int := if strContains rp "config" || strContains rp "webpack" then -30 else 0
  let s6 : Int := if strContains rp "type" || strContains rp "interface" then 10 else 0
  s1 + s2 + s3 - depth * 2 + s5 + s6

/-- Stable descending insertion (a stable sort with comparator
`b.score - a.score` keeps an earlier element before later equal-scored ones). -/
def insertByScoreDesc (x : String) : List String → List String
  | [] => [x]
  | y :: ys => if fileScore x ≥ fileScore y then x :: y :: ys else y :: insertByScoreDesc x ys

/-- `TreeSitterAnalyzer.prioritizeFiles`: stable sort, highest score first. -/
def prioritizeFiles : List String → List String
  | [] => []
  | x :: rest => insertByScoreDesc x (prioritizeFiles rest)

/-- The `findFiles` result pool: unbounded when `maxFiles = 0`, else capped by
the `searchLimit` of `maxFiles * 3`. -/
def searchPool (allMatches : List String) (maxFiles : Nat) : List String :=
  if maxFiles = 0 then allMatches else allMatches.take (maxFiles * 3)

/-- The discovery portion of `TreeSitterAnalyzer.analyzeProject`: pool, second
filter pass, prioritization, and the final `slice(0, maxFiles)` (skipped when
`maxFiles = 0`).  The returned paths are the files the analysis loop then
analyzes. -/
def analyzeProjectDiscovery (allMatches : List String) (maxFiles : Nat) : List String :=
  let cleanedFiles := (searchPool allMatches maxFiles).filter fun p => !secondPassNoise p
  let prioritizedFiles := prioritizeFiles cleanedFiles
  if maxFiles = 0 then prioritizedFiles else prioritizedFiles.take maxFiles

/-! ## The batch orchestrator (`BatchTourGenerator`)

The per-batch LLM call is external: a batch request either settles before the
45-second timer — with the thrown error or the response content,
`Except String String`, exactly the interface of
`LLMService.generateCompletion` — or the timer wins the `Promise.race`.  An
`oracle` assigns every 0-based batch index its outcome; group results are
appended in submission order after each group's `Promise.all`. -/

/-- How one batch's LLM call turns out. -/
inductive BatchCallOutcome where
  | settled (response : Except String String)
  | timeout

/-- `BatchTourGenerator.generateBatchSteps` given the call outcome: parse the
response; the `catch` turns a thrown call error into the empty list. -/
def generateBatchSteps (outcome : Except String String) : List JsonVal :=
  match outcome with
  | .ok content => parseStepsFromResponse content
  | .error _ => []

/-- `BatchTourGenerator.generateBatchWithTimeout`: the `Promise.race` of the
batch generation against the 45-second timer; the timer rejects with
`Timeout after 45s`. -/
def generateBatchWithTimeout (o : BatchCallOutcome) : Except String (List JsonVal) :=
  match o with
  | .settled r => .ok (generateBatchSteps r)
  | .timeout => .error "Timeout after 45s"

/-- The `try`/`catch` around one batch promise inside the group loop: a
rejected batch contributes the empty array instead of failing the run. -/
def processBatch (o : BatchCallOutcome) : List JsonVal :=
  match generateBatchWithTimeout o with
  | .ok steps => steps
  | .error _ => []

/-- `BatchTourGenerator.filterImportantFiles`: drop noise files and files
without code elements. -/
def filterImportantFiles (files : List FileAnalysis) : List FileAnalysis :=
  files.filter fun file =>
    let fileName := strToLower file.file
    if strContains fileName ".test." || strContains fileName ".spec." ||
        strContains fileName "__tests__" || strContains fileName "test/" ||
        strContains fileName "tests/" || strContains fileName ".config." ||
        strContains fileName "config/" || strContains fileName ".generated." ||
        strContains fileName "node_modules" || strContains fileName "dist/" ||
        strContains fileName "build/" || strContains fileName ".min." ||
        strContains fileName ".d.ts" then false
    else if file.elements.isEmpty then false
    else true

/-- `BatchTourGenerator.getFileImportance`. -/
def getFileImportance (file : FileAnalysis) : Int :=
  let fileName := strToLower file.file
  let s1 : Int := if strContains fileName "index" || strContains fileName "main" ||
      strContains fileName "app" then 100 else 0
  let s2 : Int := if strContains fileName "src/" || strContains fileName "lib/" then 50 else 0
  let s3 : Int := (file.elements.length : Int) * 5
  let s4 : Int := if strContains fileName "test" || strContains fileName "spec" then -50 else 0
  s1 + s2 + s3 + s4

/-- Stable descending insertion by `getFileImportance` (V8 stable sort with
comparator `bScore - aScore`). -/
def insertByImportanceDesc (x : FileAnalysis) : List FileAnalysis → List FileAnalysis
  | [] => [x]
  | y :: ys =>
    if getFileImportance x ≥ getFileImportance y then x :: y :: ys
    else y :: insertByImportanceDesc x ys

/-- The sort inside `createFileBatches`. -/
def sortByImportance : List FileAnalysis → List FileAnalysis
  | [] => []
  | x :: rest => insertByImportanceDesc x (sortByImportance rest)

/-- The `BATCH_SIZE = 4` chunking loop of `createFileBatches`. -/
def chunkBatches : List FileAnalysis → List (List FileAnalysis)
  | [] => []
  | [a] => [[a]]
  | [a, b] => [[a, b]]
  | [a, b, c] => [[a, b, c]]
  | a :: b :: c :: d :: rest => [a, b, c, d] :: chunkBatches rest

/-- `BatchTourGenerator.createFileBatches`: sort by importance, then batches
of four. -/
def createFileBatches (files : List FileAnalysis) : List (List FileAnalysis) :=
  chunkBatches (sortByImportance files)

/-- The group loop of `generateTourInBatches`: `CONCURRENT_BATCHES = 3`
batches per group; within a group every batch promise is issued, each
`try`/`catch`-wrapped (`processBatch`), and after `Promise.all` the results
are appended in submission order; `groupStart` is the 0-based index of the
group's first batch (the source's `batchNum` is this index plus one). -/
def processGroups (oracle : Nat → BatchCallOutcome) (groupStart : Nat) :
    List (List FileAnalysis) → List JsonVal
  | [] => []
  | [_] => processBatch (oracle groupStart)
  | [_, _] => processBatch (oracle groupStart) ++ processBatch (oracle (groupStart + 1))
  | _ :: _ :: _ :: rest =>
    processBatch (oracle groupStart) ++ processBatch (oracle (groupStart + 1)) ++
      processBatch (oracle (groupStart + 2)) ++ processGroups oracle (groupStart + 3) rest

/-- `BatchTourGenerator.generateTourInBatches`: the welcome steps produced by
pass 1 (an input here; see `generateWelcomePage`) followed by the grouped,
failure-isolated batch results over the filtered and batched files. -/
def generateTourInBatches (files : List FileAnalysis) (welcomeSteps : List JsonVal)
    (oracle : Nat → BatchCallOutcome) : List JsonVal :=
  welcomeSteps ++ processGroups oracle 0 (createFileBatches (filterImportantFiles files))

/-! ## The welcome synthesizer (`BatchTourGenerator.generateWelcomePage`)

Inputs from the external collaborators: the workspace display name, the raw
README text when the README read succeeds (`none` when it throws), the
manifest description (empty when absent), and the LLM call outcome.  The
README cleaning, the defensive parse of the response, the
first-element/file-overwrite handling, and the deterministic fallback are
repository code and are embedded below.  Parsed steps are JSON values; the
source reads and writes their properties without validating their shape. -/

/-- The suffix just after the leftmost occurrence of `pat` in `hay`. -/
def findAfterSub (hay pat : List Char) : Option (List Char) :=
  if pat.isPrefixOf hay then some (hay.drop pat.length)
  else
    match hay with
    | [] => none
    | _ :: t => findAfterSub t pat

/-- Ordered-substring test: the patterns occur in order with arbitrary gaps —
the shape of an unanchored regex built from literals joined by lazy `.*?`
(existence of a match is unchanged by taking each leftmost occurrence). -/
def hasSubSeq (hay : List Char) : List (List Char) → Bool
  | [] => true
  | p :: ps =>
    match findAfterSub hay p with
    | some rest => hasSubSeq rest ps
    | none => false

/-- `/!\[.*?\]\(.*?badge.*?\)/i` applied to a line (tested lowercased; the
literal pieces are case-invariant apart from `badge`). -/
def badgeLineTest (lower : String) : Bool :=
  hasSubSeq lower.toList ["![".toList, "](".toList, "badge".toList, ")".toList]

/-- `/!\[.*?\]\(https:\/\/img\.shields\.io/i` applied to a line. -/
def shieldsLineTest (lower : String) : Bool :=
  hasSubSeq lower.toList ["![".toList, "](https://img.shields.io".toList]

/-- Whole-word match of `w` at the head of `cs` (`\bw\b` with the left
boundary already established by the caller). -/
def wwMatchHere (w cs : List Char) : Option (List Char) :=
  if w.isPrefixOf cs then
    let rest := cs.drop w.length
    match rest with
    | [] => some []
    | c :: _ => if isWordChar c then none else some rest
  else none

/-- First whole-word match drawn from the alternatives (which are pairwise
non-prefix, so at most one applies at a position). -/
def wwMatchAny (ws : List (List Char)) (cs : List Char) : Option (List Char) :=
  match ws with
  | [] => none
  | w :: rest =>
    match wwMatchHere w cs with
    | some r => some r
    | none => wwMatchAny rest cs

/-- Scan for the leftmost whole-word occurrence of any alternative;
`prevIsWord` tracks whether the previous character was a word character (the
`\b` left boundary). -/
def findWholeWord (ws : List (List Char)) : Bool → List Char → Option (List Char)
  | _, [] => none
  | prevIsWord, c :: rest =>
    match (if prevIsWord then none else wwMatchAny ws (c :: rest)) with
    | some r => some r
    | none => findWholeWord ws (isWordChar c) rest

/-- `/\b(try|get|download|available)\b.*\b(free|now|today)\b/i` on a
(lowercased) line. -/
def adWordPairTest (lower : String) : Bool :=
  match findWholeWord ["try".toList, "get".toList, "download".toList, "available".toList]
      false lower.toList with
  | some suffix =>
    (findWholeWord ["free".toList, "now".toList, "today".toList] true suffix).isSome
  | none => false

/-- The promotional-line test of `cleanReadmeContent` (`line` is lowercased
in the source before these checks). -/
def adLineTest (lower : String) : Bool :=
  (strContains lower "warp" && strContains lower "built for") ||
    (strContains lower "tuple" && strContains lower "premier") ||
    (strContains lower "available for" && strContains lower "macos") ||
    adWordPairTest lower

/-- The sponsor-section trigger of `cleanReadmeContent`. -/
def sponsorLineTest (lower : String) : Bool :=
  strContains lower "sponsor" || strContains lower "### sponsors" ||
    strContains lower "## sponsors" || strContains lower "### thank"

/-- `/^#{1,3}\s/`: one to three `#` then whitespace (a fourth `#` defeats all
backtracking positions). -/
def headingMatch (line : String) : Bool :=
  let cs := line.toList
  let k := (cs.takeWhile fun c => c = '#').length
  decide (1 ≤ k) && decide (k ≤ 3) &&
    (match (cs.drop k).head? with
     | some c => c.isWhitespace
     | none => false)

/-- The line loop of `cleanReadmeContent`: drop badge lines, open a skipped
section at sponsor lines, drop promotional lines, resume at the next heading,
keep everything else. -/
def cleanReadmeLoop : Bool → List String → List String
  | _, [] => []
  | skipSection, originalLine :: rest =>
    let lower := strToLower originalLine
    if badgeLineTest lower || shieldsLineTest lower then
      cleanReadmeLoop skipSection rest
    else if sponsorLineTest lower then
      cleanReadmeLoop true rest
    else if adLineTest lower then
      cleanReadmeLoop skipSection rest
    else
      let skip2 := if skipSection && headingMatch originalLine then false else skipSection
      if skip2 then cleanReadmeLoop skip2 rest
      else originalLine :: cleanReadmeLoop skip2 rest

/-- Join strings with a separator, char-list form (JS `Array#join`). -/
def joinSepAux (sep : List Char) : List String → List Char
  | [] => []
  | [x] => x.toList
  | x :: rest => x.toList ++ sep ++ joinSepAux sep rest

/-- JS `xs.join(sep)`. -/
def joinSep (sep : String) (xs : List String) : String :=
  String.mk (joinSepAux sep.toList xs)

/-- `BatchTourGenerator.cleanReadmeContent`: clean line by line, rejoin, keep
the first 5000 characters. -/
def cleanReadmeContent (readme : String) : String :=
  let cleaned := cleanReadmeLoop false (jsSplit readme '\n')
  String.mk ((joinSep "\n" cleaned).toList.take 5000)

/-- `BatchTourGenerator.getKeyDirectories`: first six distinct top-level
directories of files that live under one. -/
def getKeyDirectories (files : List FileAnalysis) : List String :=
  (dedupFirst (files.filterMap fun f =>
    let parts := jsSplit f.file '/'
    if parts.length > 1 then parts.head? else none)).take 6

/-- `structure.entryPoints.slice(0, 3).join(", ") || "Not detected"`. -/
def entryPointsDisplay (entryPoints : List String) : String :=
  let s := joinSep ", " (entryPoints.take 3)
  if s = "" then "Not detected" else s

/-- `[...new Set(structure.files.map(f => f.language))].join(", ")`. -/
def languagesDisplay (files : List FileAnalysis) : String :=
  joinSep ", " (dedupFirst (files.map fun f => f.language))

/-- The fallback description of `generateWelcomePage`: the README-based
variant when the cleaned README is longer than 100 characters, else the
minimal project-overview variant. -/
def fallbackDescription (workspaceName packageDescription readmeContent : String)
    (st : ProjectStructure) : String :=
  let purpose := if packageDescription = "" then ""
    else "## 🎯 Purpose\n" ++ packageDescription ++ "\n\n"
  if readmeContent.toList.length > 100 then
    "# Welcome to " ++ workspaceName ++ "\n\n" ++ purpose ++
      joinSep "\n" ((jsSplit readmeContent '\n').take 40) ++ "\n\n" ++
      "## 📊 Codebase Overview\n" ++
      "- **Files**: " ++ toString st.files.length ++ " analyzed\n" ++
      "- **Languages**: " ++ languagesDisplay st.files ++ "\n" ++
      "- **Entry Points**: " ++ entryPointsDisplay st.entryPoints ++ "\n\n" ++
      "## 📚 Tour Coverage\nThis tour explores the key components, architecture, and implementation details of this codebase.\n"
  else
    "# Welcome to " ++ workspaceName ++ "\n\n" ++ purpose ++
      "## 📊 Project Overview\n" ++
      "- **Files Analyzed**: " ++ toString st.files.length ++ "\n" ++
      "- **Languages**: " ++ languagesDisplay st.files ++ "\n" ++
      "- **Entry Points**: " ++ entryPointsDisplay st.entryPoints ++ "\n\n" ++
      "## 📂 Key Directories\n" ++
      joinSep "\n" ((getKeyDirectories st.files).map fun d =>
        "- `" ++ d ++ "/` - Main source directory") ++
      "\n\n## 🎯 What You\x27ll Learn\n" ++
      "This tour will walk you through the codebase structure, key components, and how different parts work together.\n"

/-- JS property read `j.k` on a parsed JSON value (`undefined` is `none`). -/
def JsonVal.getField : JsonVal → String → Option JsonVal
  | .obj fields, k =>
    match fields.find? fun kv => kv.1 = k with
    | some kv => some kv.2
    | none => none
  | _, _ => none

/-- JS property write `j.k = v` on a parsed JSON object. -/
def JsonVal.setField (j : JsonVal) (k : String) (v : JsonVal) : JsonVal :=
  match j with
  | .obj fields => .obj (insertKV fields k v)
  | other => other

/-- JS falsiness of a read property (`undefined`, `null`, `false`, `0`, `""`). -/
def jsFalsyField : Option JsonVal → Bool
  | none => true
  | some .null => true
  | some (.bool false) => true
  | some (.num 0) => true
  | some (.str "") => true
  | _ => false

/-- The handling of the first parsed step in `generateWelcomePage`: when its
`file` is falsy or the generic `"README.md"`, overwrite it with the resolved
welcome file.  A `null` first element makes the `steps[0].title` /
`steps[0].file` property accesses throw, and a primitive first element makes
the strict-mode property assignment throw — both land in the `catch`
(`none`); non-object array values are treated the same way (for an array
first element the assignment would attach an expando property invisible to
every later consumer, which no claim distinguishes from this rendering). -/
def firstStepAdjust (s0 : JsonVal) (welcomeFile : String) : Option JsonVal :=
  match s0 with
  | .obj fields =>
    let fileVal := JsonVal.getField (.obj fields) "file"
    let isGenericReadme : Bool := match fileVal with
      | some (.str s) => s == "README.md"
      | _ => false
    if jsFalsyField fileVal || isGenericReadme then
      some (JsonVal.setField (.obj fields) "file" (.str welcomeFile))
    else some (.obj fields)
  | _ => none

/-- The deterministic fallback step of `generateWelcomePage`. -/
def fallbackWelcomeStep (workspaceName welcomeFile description : String) : JsonVal :=
  .obj [("title", .str ("🎉 Welcome to " ++ workspaceName)),
        ("file", .str welcomeFile),
        ("line", .num 1),
        ("description", .str description)]

/-- The welcome file before any README read:
`structure.files[0]?.file || "README.md"`. -/
def defaultWelcomeFile (st : ProjectStructure) : String :=
  match st.files with
  | [] => "README.md"
  | f :: _ => if f.file = "" then "README.md" else f.file

/-- The welcome file after the README probe: the probe succeeding rebinds it
to `"README.md"`. -/
def resolvedWelcomeFile (st : ProjectStructure) (readme? : Option String) : String :=
  match readme? with
  | some _ => "README.md"
  | none => defaultWelcomeFile st

/-- `BatchTourGenerator.generateWelcomePage`: probe the README (cleaning it on
success), call the service, defensively parse, keep only the first returned
step with its `file` possibly overwritten; any failure (service call, empty
parse, property access on a malformed first element) falls back to the one
deterministic welcome step. -/
def generateWelcomePage (st : ProjectStructure) (workspaceName : String)
    (readme? : Option String) (packageDescription : String)
    (service : Except String String) : List JsonVal :=
  let readmeContent := match readme? with
    | some full => cleanReadmeContent full
    | none => ""
  let welcomeFile := resolvedWelcomeFile st readme?
  let fallback := [fallbackWelcomeStep workspaceName welcomeFile
    (fallbackDescription workspaceName packageDescription readmeContent st)]
  match service with
  | .error _ => fallback
  | .ok content =>
    match parseStepsFromResponse content with
    | [] => fallback
    | s0 :: _ =>
      match firstStepAdjust s0 welcomeFile with
      | some s0adj => [s0adj]
      | none => fallback

/-! ## Validator lemmas and claims C1, C2, C8, C10 -/

/-- The welcome test, spelled propositionally. -/
theorem isWelcomeStep_iff (i : Nat) (s : GeneratedTourStep) :
    isWelcomeStep i s = true ↔ i = 0 ∧ strContains s.title "Welcome" = true := by
  simp [isWelcomeStep]

/-- The validation loop is the per-index filter-map of `validateStep` over the
enumerated input: each step is decided independently at its input index, and
survivors keep their relative order. -/
theorem validateLoop_eq_filterMap (st : ProjectStructure) :
    ∀ (l : List GeneratedTourStep) (i : Nat),
      validateLoop st i l = (l.enumFrom i).filterMap fun p => validateStep st p.1 p.2 := by
  intro l
  induction l with
  | nil => intro i; rfl
  | cons a t ih =>
    intro i
    simp only [validateLoop, List.enumFrom, List.filterMap]
    cases h : validateStep st i a with
    | none => simp [h, ih]
    | some v => simp [h, ih]

/-- **C1**: In the Validator, a step is exempt from file-existence checking iff
it sits at index 0 and its title contains the marker text `Welcome`: a step
whose file neither exists in the structure nor basename-remaps survives
validation exactly when it is the index-0 welcome-marked step; and the
exemption test can only hold at index 0 (so at most one input step — the one
at index 0 — is ever exempt). -/
theorem c1_welcome_exemption :
    (∀ (st : ProjectStructure) (i : Nat) (s : GeneratedTourStep),
        fileExistsIn st.files s.file = false →
        findSimilarFile s.file st.files = none →
        ((validateStep st i s).isSome ↔ (i = 0 ∧ strContains s.title "Welcome" = true)))
    ∧ (∀ (i : Nat) (s : GeneratedTourStep), isWelcomeStep i s = true → i = 0) := by
  constructor
  · intro st i s hex hsim
    rw [← isWelcomeStep_iff]
    unfold validateStep
    by_cases hw : isWelcomeStep i s = true
    · simp [hw]
    · simp only [Bool.not_eq_true] at hw
      simp [hw, hex, hsim]
  · intro i s h
    exact ((isWelcomeStep_iff i s).mp h).1

/-- An empty project structure (fixture). -/
def c1St : ProjectStructure :=
  { rootPath := "", files := [], entryPoints := [], dependencies := [] }

/-- A welcome-marked step with an unknown file (fixture). -/
def c1Step : GeneratedTourStep :=
  { title := "Welcome here", file := "README.md", line := none, description := "d",
    selection := none }

/-- Closed instance of C1: the index-0 welcome-marked step with an unknown
file survives the existence check. -/
theorem c1_welcome_exemption_witness :
    fileExistsIn c1St.files c1Step.file = false ∧
    findSimilarFile c1Step.file c1St.files = none ∧
    ((validateStep c1St 0 c1Step).isSome ↔
      (0 = 0 ∧ strContains c1Step.title "Welcome" = true)) :=
  ⟨rfl, rfl, c1_welcome_exemption.1 c1St 0 c1Step rfl rfl⟩

/-- **C2**: Every non-exempt step whose `file` is not in the structure's file
set is basename-remapped or dropped: on a case-insensitive same-basename
match the step survives with its `file` rewritten to the matched analyzed
path; with no match the step is dropped; a successful `findSimilarFile`
result really is an analyzed file with the same lowercased basename; and the
validator output is the order-preserving filter-map of the per-index decision
over the (truncated) input, so surviving steps keep their relative order. -/
theorem c2_basename_remap_or_drop :
    (∀ (st : ProjectStructure) (i : Nat) (s : GeneratedTourStep),
        isWelcomeStep i s = false →
        fileExistsIn st.files s.file = false →
        ((∀ f', findSimilarFile s.file st.files = some f' →
            ∃ t, validateStep st i s = some t ∧ t.file = f')
          ∧ (findSimilarFile s.file st.files = none → validateStep st i s = none)))
    ∧ (∀ (target : String) (files : List FileAnalysis) (f' : String),
        findSimilarFile target files = some f' →
        (∃ fa ∈ files, fa.file = f') ∧
          strToLower (lastPathComponent f') = strToLower (lastPathComponent target))
    ∧ (∀ (steps : List GeneratedTourStep) (st : ProjectStructure) (m : Option Nat),
        validateAndRefineSteps steps st m =
          ((steps.take (maxStepsOrDefault m)).enum.filterMap
            fun p => validateStep st p.1 p.2)) := by
  refine ⟨?_, ?_, ?_⟩
  · intro st i s hw hex
    constructor
    · intro f' hf
      unfold validateStep
      simp [hw, hex, hf]
    · intro hf
      unfold validateStep
      simp [hw, hex, hf]
  · intro target files f' hf
    cases hfind : files.find? (fun f =>
        strToLower (lastPathComponent f.file) = strToLower (lastPathComponent target)) with
    | none => simp [findSimilarFile, hfind] at hf
    | some fa =>
      simp only [findSimilarFile, hfind, Option.some.injEq] at hf
      subst hf
      refine ⟨⟨fa, List.mem_of_find?_eq_some hfind, rfl⟩, ?_⟩
      have := List.find?_some hfind
      simpa using this
  · intro steps st m
    unfold validateAndRefineSteps
    rw [validateLoop_eq_filterMap]
    rfl

/-- Non-exempt fixture structure for C2. -/
def c2St : ProjectStructure :=
  { rootPath := "",
    files := [{ file := "src/Real.ts", language := "typescript", elements := [],
                imports := [], exports := [] }],
    entryPoints := [], dependencies := [] }

/-- Non-exempt fixture step whose file only matches by basename. -/
def c2Step : GeneratedTourStep :=
  { title := "t", file := "lib/real.TS", line := none, description := "d", selection := none }

/-- Closed instance of C2: the basename match rewrites `lib/real.TS` to the
analyzed `src/Real.ts`. -/
theorem c2_basename_remap_or_drop_witness :
    isWelcomeStep 1 c2Step = false ∧
    fileExistsIn c2St.files c2Step.file = false ∧
    findSimilarFile c2Step.file c2St.files = some "src/Real.ts" ∧
    (∃ t, validateStep c2St 1 c2Step = some t ∧ t.file = "src/Real.ts") :=
  ⟨rfl, rfl, by decide,
    (c2_basename_remap_or_drop.1 c2St 1 c2Step rfl rfl).1 "src/Real.ts" (by decide)⟩

/-- **C10**: For every surviving step the Validator passes `title`,
`description` and `selection` through unchanged — only `file` (by basename
remapping) and `line` (by the clamp) can differ between a surviving input
step and its emitted counterpart. -/
theorem c10_passthrough_frame :
    ∀ (st : ProjectStructure) (i : Nat) (s : GeneratedTourStep) (t : CodeTourStep),
      validateStep st i s = some t →
      t.title = s.title ∧ t.description = s.description ∧ t.selection = s.selection := by
  intro st i s t h
  unfold validateStep at h
  cases hfr : (if isWelcomeStep i s then some s.file
      else if fileExistsIn st.files s.file then some s.file
      else findSimilarFile s.file st.files) with
  | none => rw [hfr] at h; exact absurd h (by simp)
  | some file =>
    rw [hfr] at h
    simp only [Option.some.injEq] at h
    subst h
    exact ⟨rfl, rfl, rfl⟩

/-- Fixture structure for the C10 witness. -/
def c10St : ProjectStructure :=
  { rootPath := "",
    files := [{ file := "a.ts", language := "typescript", elements := [],
                imports := [], exports := [] }],
    entryPoints := [], dependencies := [] }

/-- Fixture step for the C10 witness. -/
def c10Step : GeneratedTourStep :=
  { title := "T", file := "a.ts", line := some 7, description := "D",
    selection := some { start := { line := 1, character := 2 },
                        stop := { line := 3, character := 4 } } }

/-- Closed instance of C10 at a concrete surviving step. -/
theorem c10_passthrough_frame_witness :
    ∃ t, validateStep c10St 2 c10Step = some t ∧
      (t.title = c10Step.title ∧ t.description = c10Step.description ∧
        t.selection = c10Step.selection) := by
  refine ⟨{ title := "T", file := "a.ts", description := "D", line := some 7,
            selection := some { start := { line := 1, character := 2 },
                                stop := { line := 3, character := 4 } } }, rfl, ?_⟩
  exact c10_passthrough_frame c10St 2 c10Step _ rfl

/-- Fixture structure for the C8 counterexample (`README.md` is not analyzed
and has no same-basename match). -/
def c8St : ProjectStructure :=
  { rootPath := "",
    files := [{ file := "src/real.ts", language := "typescript", elements := [],
                imports := [], exports := [] }],
    entryPoints := [], dependencies := [] }

/-- Fixture step for the C8 counterexample: the welcome-exempt step carries a
present `line` of `-5`. -/
def c8Step : GeneratedTourStep :=
  { title := "Welcome Tour", file := "README.md", line := some (-5), description := "d",
    selection := none }

/-- **C8 counterexample**: the claim says every emitted step with a present
`line < 1` comes out with `line = 1`; but the exempt welcome step's file is
not found among the analyzed files, the clamp is skipped, and the emitted
step keeps `line = -5`. -/
theorem c8_line_clamp_counterexample :
    (validateAndRefineSteps [c8Step] c8St (some 20)).map (fun t => t.line) = [some (-5)] ∧
    c8Step.line = some (-5) ∧ ((-5 : Int) < 1) ∧ some (-5 : Int) ≠ some (1 : Int) := by
  refine ⟨rfl, rfl, by decide, by decide⟩

/-- **C8 amended**: the clamp is guarded by JS truthiness and by finding the
step's (already remapped) file among the analyzed files: a present nonzero
`line` is clamped to 1 exactly when it is below 1 *and* the emitted file is in
the structure's file set; a present `line` of 0 is dropped (the emitted step
has no `line`); otherwise `line` passes through unchanged — in particular the
welcome-exempt step with a file outside the structure is never clamped, and no
upper bound is checked. -/
theorem c8_line_clamp_amended :
    ∀ (st : ProjectStructure) (i : Nat) (s : GeneratedTourStep) (t : CodeTourStep),
      validateStep st i s = some t →
      t.line = (match s.line with
        | none => none
        | some n =>
          if n = 0 then none
          else if fileExistsIn st.files t.file && n < 1 then some 1
          else some n) := by
  intro st i s t h
  unfold validateStep at h
  cases hfr : (if isWelcomeStep i s then some s.file
      else if fileExistsIn st.files s.file then some s.file
      else findSimilarFile s.file st.files) with
  | none => rw [hfr] at h; exact absurd h (by simp)
  | some file =>
    rw [hfr] at h
    simp only [Option.some.injEq] at h
    subst h
    cases hl : s.line with
    | none => simp [hl]
    | some n =>
      simp only [hl]
      by_cases hn : n = 0 <;> simp [hn]

/-- Closed instance of the amended C8: a nonzero negative line on a step whose
file is analyzed is clamped to 1. -/
theorem c8_line_clamp_amended_witness :
    ∃ t, validateStep c8St 1
        { title := "t", file := "src/real.ts", line := some (-5), description := "d",
          selection := none } = some t ∧
      t.line = (match some (-5 : Int) with
        | none => none
        | some n =>
          if n = 0 then none
          else if fileExistsIn c8St.files t.file && n < 1 then some 1
          else some n) := by
  refine ⟨{ title := "t", file := "src/real.ts", description := "d", line := some 1,
            selection := none }, rfl, ?_⟩
  exact c8_line_clamp_amended c8St 1
    { title := "t", file := "src/real.ts", line := some (-5), description := "d",
      selection := none } _ rfl

/-! ## Claim C3: the step-parser extraction -/

/-- `afterFirstLbrack` lands right after the first `[`. -/
theorem afterFirstLbrack_append (rest : List Char) :
    ∀ (pre : List Char), '[' ∉ pre →
      afterFirstLbrack (pre ++ '[' :: rest) = some rest := by
  intro pre
  induction pre with
  | nil => intro _; simp [afterFirstLbrack]
  | cons c t ih =>
    intro hpre
    simp only [List.mem_cons, not_or] at hpre
    have hc : ¬c = '[' := fun h => hpre.1 h.symm
    simp [afterFirstLbrack, hc, ih hpre.2]

/-- No `]` anywhere means no cut point. -/
theorem cutAtLastRbrack_none : ∀ (l : List Char), ']' ∉ l → cutAtLastRbrack l = none := by
  intro l
  induction l with
  | nil => intro _; rfl
  | cons c t ih =>
    intro hl
    simp only [List.mem_cons, not_or] at hl
    have hc : ¬c = ']' := fun h => hl.1 h.symm
    simp [cutAtLastRbrack, ih hl.2, hc]

/-- `cutAtLastRbrack` keeps everything up to and including the last `]`. -/
theorem cutAtLastRbrack_append (post : List Char) (hpost : ']' ∉ post) :
    ∀ (mid : List Char), cutAtLastRbrack (mid ++ ']' :: post) = some (mid ++ [']']) := by
  intro mid
  induction mid with
  | nil => simp [cutAtLastRbrack, cutAtLastRbrack_none post hpost]
  | cons c t ih => simp [cutAtLastRbrack, ih]

/-- The regex model extracts exactly the first-`[`-to-last-`]` substring. -/
theorem extractJsonArray_eq (r : String) (pre mid post : List Char)
    (hr : r.toList = pre ++ '[' :: (mid ++ ']' :: post))
    (hpre : '[' ∉ pre) (hpost : ']' ∉ post) :
    extractJsonArray r = some (String.mk ('[' :: (mid ++ [']']))) := by
  unfold extractJsonArray
  rw [hr, afterFirstLbrack_append _ pre hpre]
  simp [cutAtLastRbrack_append post hpost mid]

/-- **C3 counterexample**: on the response `[1] x ]` the spec's extraction
(first balanced array, `[1]`) parses to a one-step list, but the code's
greedy regex takes the whole `[1] x ]`, `JSON.parse` fails, and the call
yields the empty step list — so the parser does *not* extract the first
top-level `[...]` substring. -/
theorem c3_first_balanced_counterexample :
    parseStepsFromResponse "[1] x ]" = [] ∧
    parseStepsSpec "[1] x ]" = [JsonVal.num 1] ∧
    extractBalancedArray "[1] x ]" = some "[1]" ∧
    extractJsonArray "[1] x ]" = some "[1] x ]" ∧
    ([] : List JsonVal) ≠ [JsonVal.num 1] :=
  ⟨rfl, rfl, rfl, rfl, fun h => List.noConfusion h⟩

/-- **C3 amended**: `parseStepsFromResponse` extracts the substring from the
*first `[`* through the *last `]`* of the response (greedy `[\s\S]*`),
tolerating leading and trailing prose, and parses it as JSON; when there is
no such substring, or the parse fails, or the parsed value is not an array,
the result is the empty step list; and every thrown error inside the body is
caught, so the caller always receives a list. -/
theorem c3_greedy_extraction_amended :
    (∀ (r : String) (pre mid post : List Char),
        r.toList = pre ++ '[' :: (mid ++ ']' :: post) → '[' ∉ pre → ']' ∉ post →
        parseStepsFromResponse r =
          (match JsonVal.parse (String.mk ('[' :: (mid ++ [']']))) with
           | some (.arr steps) => steps
           | _ => []))
    ∧ (∀ r : String, extractJsonArray r = none → parseStepsFromResponse r = [])
    ∧ (∀ (r : String) (e : String), parseStepsInner r = .error e →
        parseStepsFromResponse r = []) := by
  refine ⟨?_, ?_, ?_⟩
  · intro r pre mid post hr hpre hpost
    unfold parseStepsFromResponse parseStepsInner
    rw [extractJsonArray_eq r pre mid post hr hpre hpost]
    cases hp : JsonVal.parse (String.mk ('[' :: (mid ++ [']']))) with
    | none => simp [hp]
    | some j => cases j <;> simp [hp]
  · intro r hnone
    unfold parseStepsFromResponse parseStepsInner
    rw [hnone]
  · intro r e herr
    unfold parseStepsFromResponse
    rw [herr]

/-- Closed instance of the amended C3: prose around `[1]` still parses to the
one-element step list. -/
theorem c3_greedy_extraction_amended_witness :
    ("a[1]b".toList = ['a'] ++ '[' :: (['1'] ++ ']' :: ['b'])) ∧
    ('[' ∉ ['a']) ∧ (']' ∉ ['b']) ∧
    parseStepsFromResponse "a[1]b" =
      (match JsonVal.parse (String.mk ('[' :: (['1'] ++ [']']))) with
       | some (.arr steps) => steps
       | _ => []) :=
  ⟨rfl, by decide, by decide,
    c3_greedy_extraction_amended.1 "a[1]b" ['a'] ['1'] ['b'] rfl (by decide) (by decide)⟩

/-! ## Claim C4: batch failure isolation -/

/-- Per-batch contributions for `k` consecutive batches starting at index
`i`, in submission order: each batch contributes `processBatch` of its own
outcome, independent of every other index. -/
def batchContributions (oracle : Nat → BatchCallOutcome) (i : Nat) : Nat → List JsonVal
  | 0 => []
  | k + 1 => processBatch (oracle i) ++ batchContributions oracle (i + 1) k

/-- The grouped loop (3 batches per group, merged after each group settles)
flattens to the plain per-batch contribution list. -/
theorem processGroups_eq_contributions (oracle : Nat → BatchCallOutcome) :
    ∀ (bs : List (List FileAnalysis)) (s : Nat),
      processGroups oracle s bs = batchContributions oracle s bs.length
  | [], _ => rfl
  | [_], s => by simp [processGroups, batchContributions]
  | [_, _], s => by simp [processGroups, batchContributions]
  | _ :: _ :: _ :: rest, s => by
    simp only [processGroups, List.length_cons, batchContributions]
    rw [processGroups_eq_contributions oracle rest (s + 3)]
    simp [List.append_assoc]

/-- Contributions only depend on the outcomes at the indices they cover. -/
theorem batchContributions_congr (oracle oracle' : Nat → BatchCallOutcome) :
    ∀ (k s : Nat),
      (∀ j, s ≤ j → j < s + k → processBatch (oracle j) = processBatch (oracle' j)) →
      batchContributions oracle s k = batchContributions oracle' s k := by
  intro k
  induction k with
  | zero => intro s _; rfl
  | succ n ih =>
    intro s h
    simp only [batchContributions]
    rw [h s (Nat.le_refl s) (by omega), ih (s + 1) (fun j hj1 hj2 => h j (by omega) (by omega))]

/-- **C4**: a batch timeout rejects the race exactly like a thrown batch
failure, and every rejected batch contributes the empty step list through the
group-level `catch`; a batch whose LLM call throws before the timer (transport
error) is caught inside `generateBatchSteps` and likewise contributes the
empty list; the grouped concurrent processing merges, after the welcome
steps, the per-batch results in submission order, each batch independent of
the others; and replacing one failed batch's outcome by any other failed
outcome (e.g. a timeout by a transport error) leaves the entire output — in
particular every other batch's steps — unchanged. -/
theorem c4_batch_failure_isolation :
    (generateBatchWithTimeout .timeout = .error "Timeout after 45s")
    ∧ (∀ (o : BatchCallOutcome) (e : String),
        generateBatchWithTimeout o = .error e → processBatch o = [])
    ∧ (∀ e : String, generateBatchSteps (.error e) = [])
    ∧ (∀ (files : List FileAnalysis) (welcome : List JsonVal)
        (oracle : Nat → BatchCallOutcome),
        generateTourInBatches files welcome oracle =
          welcome ++ batchContributions oracle 0
            (createFileBatches (filterImportantFiles files)).length)
    ∧ (∀ (files : List FileAnalysis) (welcome : List JsonVal)
        (oracle oracle' : Nat → BatchCallOutcome) (i : Nat),
        processBatch (oracle i) = [] →
        processBatch (oracle' i) = [] →
        (∀ j, j ≠ i → oracle' j = oracle j) →
        generateTourInBatches files welcome oracle =
          generateTourInBatches files welcome oracle') := by
  refine ⟨rfl, ?_, fun _ => rfl, ?_, ?_⟩
  · intro o e h
    unfold processBatch
    rw [h]
  · intro files welcome oracle
    unfold generateTourInBatches
    rw [processGroups_eq_contributions]
  · intro files welcome oracle oracle' i he he' hagree
    unfold generateTourInBatches
    rw [processGroups_eq_contributions, processGroups_eq_contributions]
    congr 1
    apply batchContributions_congr
    intro j _ _
    by_cases hji : j = i
    · subst hji
      rw [he, he']
    · rw [hagree j hji]

/-- Five analyzable files (fixture): enough for two batches. -/
def c4Files : List FileAnalysis :=
  ["src/a.ts", "src/b.ts", "src/c.ts", "src/d.ts", "src/e.ts"].map fun p =>
    { file := p, language := "typescript",
      elements := [.mk .fn "f" p 1 1 []], imports := [], exports := [] }

/-- Oracle whose batch 1 times out (fixture). -/
def c4Oracle : Nat → BatchCallOutcome :=
  fun j => if j = 1 then .timeout else .settled (.ok "[7]")

/-- Oracle whose batch 1 throws a transport error (fixture). -/
def c4OracleE : Nat → BatchCallOutcome :=
  fun j => if j = 1 then .settled (.error "ECONNREFUSED") else .settled (.ok "[7]")

/-- Closed instance of C4: swapping batch 1's timeout for a transport error
changes nothing in the orchestrated output. -/
theorem c4_batch_failure_isolation_witness :
    processBatch (c4Oracle 1) = [] ∧
    processBatch (c4OracleE 1) = [] ∧
    generateTourInBatches c4Files [] c4Oracle = generateTourInBatches c4Files [] c4OracleE :=
  ⟨rfl, rfl,
    c4_batch_failure_isolation.2.2.2.2 c4Files [] c4Oracle c4OracleE 1 rfl rfl
      (fun j hj => by simp [c4Oracle, c4OracleE, hj])⟩

/-! ## Claim C6: discovery limits -/

/-- Insertion permutes. -/
theorem insertByScoreDesc_perm (x : String) : ∀ l : List String,
    (insertByScoreDesc x l).Perm (x :: l)
  | [] => List.Perm.refl _
  | y :: ys => by
    unfold insertByScoreDesc
    split
    · exact List.Perm.refl _
    · exact ((insertByScoreDesc_perm x ys).cons y).trans (List.Perm.swap x y ys)

/-- Prioritization reorders but neither adds nor drops files. -/
theorem prioritizeFiles_perm : ∀ l : List String, (prioritizeFiles l).Perm l
  | [] => List.Perm.refl _
  | x :: rest =>
    (insertByScoreDesc_perm x (prioritizeFiles rest)).trans
      ((prioritizeFiles_perm rest).cons x)

/-- **C6**: with `limit = 0` discovery returns every candidate that survives
the noise filter — a permutation of the filtered matches, nothing truncated;
with a nonzero limit `N` the discovery pool holds at most `3 × N` candidates
and at most `N` files are returned; and every returned file is one of the
workspace matches and never matches the noise exclusion patterns. -/
theorem c6_discovery_limit :
    (∀ allMatches : List String,
        (analyzeProjectDiscovery allMatches 0).Perm
          (allMatches.filter fun p => !secondPassNoise p))
    ∧ (∀ (allMatches : List String) (n : Nat), n ≠ 0 →
        (searchPool allMatches n).length ≤ 3 * n ∧
        (analyzeProjectDiscovery allMatches n).length ≤ n)
    ∧ (∀ (allMatches : List String) (n : Nat) (f : String),
        f ∈ analyzeProjectDiscovery allMatches n →
        f ∈ allMatches ∧ secondPassNoise f = false) := by
  refine ⟨?_, ?_, ?_⟩
  · intro allMatches
    unfold analyzeProjectDiscovery searchPool
    simpa using prioritizeFiles_perm _
  · intro allMatches n hn
    constructor
    · unfold searchPool
      simp only [hn, if_false]
      calc (allMatches.take (n * 3)).length ≤ n * 3 := by
            rw [List.length_take]; omega
        _ = 3 * n := Nat.mul_comm n 3
    · unfold analyzeProjectDiscovery
      simp only [hn, if_false]
      rw [List.length_take]
      omega
  · intro allMatches n f hf
    have hpool : ∀ g, g ∈ searchPool allMatches n → g ∈ allMatches := by
      intro g hg
      unfold searchPool at hg
      by_cases h0 : n = 0
      · simpa [h0] using hg
      · simp only [h0, if_false] at hg
        exact List.take_subset _ _ hg
    have hfiltered : f ∈ (searchPool allMatches n).filter fun p => !secondPassNoise p := by
      unfold analyzeProjectDiscovery at hf
      by_cases h0 : n = 0
      · simp only [h0, if_true] at hf
        exact ((prioritizeFiles_perm _).mem_iff).mp (by simpa [h0] using hf)
      · simp only [h0, if_false] at hf
        have := List.take_subset n _ hf
        exact ((prioritizeFiles_perm _).mem_iff).mp this
    have := List.mem_filter.mp hfiltered
    refine ⟨hpool f this.1, ?_⟩
    simpa using this.2

/-- Closed instance of C6 with `limit = 1` over three matches, one of them a
test file: the pool is within bounds, one file is returned, and it is a
non-noise workspace match. -/
theorem c6_discovery_limit_witness :
    ((searchPool ["src/index.ts", "a.test.ts", "b.ts"] 1).length ≤ 3 * 1 ∧
      (analyzeProjectDiscovery ["src/index.ts", "a.test.ts", "b.ts"] 1).length ≤ 1) ∧
    ("src/index.ts" ∈ analyzeProjectDiscovery ["src/index.ts", "a.test.ts", "b.ts"] 1) ∧
    ("src/index.ts" ∈ ["src/index.ts", "a.test.ts", "b.ts"] ∧
      secondPassNoise "src/index.ts" = false) :=
  ⟨c6_discovery_limit.2.1 ["src/index.ts", "a.test.ts", "b.ts"] 1 (by decide),
   by decide,
   c6_discovery_limit.2.2 ["src/index.ts", "a.test.ts", "b.ts"] 1 "src/index.ts" (by decide)⟩

/-! ## Claim C5: the welcome synthesizer -/

/-- **C5**: `generateWelcomePage` returns exactly one step for *every* input
— service failure, parse failure, and a malformed first element all take the
deterministic fallback, which is a one-element list by construction, and a
successful parse keeps only the (adjusted) first element; when the service
response parses to a non-empty array whose first element survives adjustment,
that single adjusted element is the whole output; and when the first parsed
element's `file` is falsy or the generic `README.md`, the adjustment
overwrites it with the resolved welcome file. -/
theorem c5_welcome_exactly_one :
    (∀ (st : ProjectStructure) (workspaceName : String) (readme? : Option String)
        (packageDescription : String) (service : Except String String),
        (generateWelcomePage st workspaceName readme? packageDescription service).length = 1)
    ∧ (∀ (st : ProjectStructure) (workspaceName : String) (readme? : Option String)
        (packageDescription content : String) (s0 : JsonVal) (rest : List JsonVal)
        (s0adj : JsonVal),
        parseStepsFromResponse content = s0 :: rest →
        firstStepAdjust s0 (resolvedWelcomeFile st readme?) = some s0adj →
        generateWelcomePage st workspaceName readme? packageDescription (.ok content) =
          [s0adj])
    ∧ (∀ (fields : List (String × JsonVal)) (welcomeFile : String),
        (jsFalsyField (JsonVal.getField (.obj fields) "file") = true ∨
          JsonVal.getField (.obj fields) "file" = some (.str "README.md")) →
        firstStepAdjust (.obj fields) welcomeFile =
          some (JsonVal.setField (.obj fields) "file" (.str welcomeFile))) := by
  refine ⟨?_, ?_, ?_⟩
  · intro st wn r? pd service
    unfold generateWelcomePage
    cases service with
    | error e => rfl
    | ok content =>
      cases hp : parseStepsFromResponse content with
      | nil => simp [hp]
      | cons s0 rest =>
        simp only [hp]
        cases ha : firstStepAdjust s0 (resolvedWelcomeFile st r?) <;> simp [ha]
  · intro st wn r? pd content s0 rest s0adj hp ha
    unfold generateWelcomePage
    simp [hp, ha]
  · intro fields welcomeFile h
    unfold firstStepAdjust
    cases h with
    | inl hfalsy => simp [hfalsy]
    | inr hreadme => simp [hreadme]

/-- Fixture structure for the C5 witness. -/
def c5St : ProjectStructure :=
  { rootPath := "",
    files := [{ file := "src/main.ts", language := "typescript", elements := [],
                imports := [], exports := [] }],
    entryPoints := [], dependencies := [] }

/-- Closed instance of C5: the service returns a two-step array whose first
step has an empty `file`; the output is exactly that first step with `file`
overwritten by the first analyzed file. -/
theorem c5_welcome_exactly_one_witness :
    parseStepsFromResponse "[\x7b\"file\": \"\"\x7d, \x7b\"file\": \"y.ts\"\x7d]" =
      JsonVal.obj [("file", .str "")] :: [JsonVal.obj [("file", .str "y.ts")]] ∧
    firstStepAdjust (JsonVal.obj [("file", .str "")]) (resolvedWelcomeFile c5St none) =
      some (JsonVal.obj [("file", .str "src/main.ts")]) ∧
    generateWelcomePage c5St "Proj" none "" (.ok "[\x7b\"file\": \"\"\x7d, \x7b\"file\": \"y.ts\"\x7d]") =
      [JsonVal.obj [("file", .str "src/main.ts")]] :=
  ⟨rfl, rfl,
    c5_welcome_exactly_one.2.1 c5St "Proj" none "" "[\x7b\"file\": \"\"\x7d, \x7b\"file\": \"y.ts\"\x7d]"
      (JsonVal.obj [("file", .str "")]) [JsonVal.obj [("file", .str "y.ts")]]
      (JsonVal.obj [("file", .str "src/main.ts")]) rfl rfl⟩

/-! ## Claim C9: the regex fallback -/

/-- The C9 element predicate distributes over append. -/
theorem fallbackElemListOkB_append : ∀ (a b : List CodeElement),
    fallbackElemListOkB (a ++ b) = (fallbackElemListOkB a && fallbackElemListOkB b)
  | [], b => by simp [fallbackElemListOkB]
  | el :: rest, b => by
    simp [fallbackElemListOkB, fallbackElemListOkB_append rest b, Bool.and_assoc]

/-- Elements minted by the fallback at 0-based line `i` satisfy the C9 shape. -/
theorem fallbackElemOkB_mk (k : CEKind) (nm fp : String) (i : Nat) :
    fallbackElemOkB (.mk k nm fp (i + 1) (i + 1) []) = true := by
  simp [fallbackElemOkB, fallbackElemListOkB]

/-- The class step preserves the C9 invariant on committed elements and the
open class. -/
theorem regexClassStep_ok (fp trimmed : String) (indent : Int) (index : Nat)
    (s : RegexState)
    (h1 : fallbackElemListOkB s.elements = true)
    (h2 : fallbackElemListOkB s.currentClass.toList = true) :
    fallbackElemListOkB (regexClassStep fp trimmed indent index s).elements = true ∧
    fallbackElemListOkB (regexClassStep fp trimmed indent index s).currentClass.toList
      = true := by
  unfold regexClassStep
  cases classMatch trimmed with
  | none => exact ⟨h1, h2⟩
  | some cname =>
    refine ⟨?_, ?_⟩
    · simp [fallbackElemListOkB_append, h1, h2]
    · simp [Option.toList, fallbackElemListOkB, fallbackElemOkB_mk]

/-- An element satisfying the C9 shape still satisfies it after a C9-shaped
method is pushed into its children. -/
theorem fallbackElemOkB_withChildren (c m : CodeElement)
    (hc : fallbackElemOkB c = true) (hm : fallbackElemOkB m = true) :
    fallbackElemOkB (c.withChildren (c.children ++ [m])) = true := by
  cases c with
  | mk t n f l e cs =>
    simp only [CodeElement.withChildren, CodeElement.children]
    simp only [fallbackElemOkB, Bool.and_eq_true] at hc ⊢
    exact ⟨hc.1, by simp [fallbackElemListOkB_append, hc.2, fallbackElemListOkB, hm]⟩

/-- The method step preserves the C9 invariant. -/
theorem regexMethodStep_ok (fp trimmed : String) (indent : Int) (index : Nat)
    (s : RegexState)
    (h1 : fallbackElemListOkB s.elements = true)
    (h2 : fallbackElemListOkB s.currentClass.toList = true) :
    fallbackElemListOkB (regexMethodStep fp trimmed indent index s).elements = true ∧
    fallbackElemListOkB (regexMethodStep fp trimmed indent index s).currentClass.toList
      = true := by
  unfold regexMethodStep
  cases methodMatch trimmed with
  | none => exact ⟨h1, h2⟩
  | some mname =>
    by_cases hcm : (strStarts trimmed "//" || strStarts trimmed "*") = true
    · simp only [hcm, if_true]
      exact ⟨h1, h2⟩
    · simp only [hcm, if_false]
      cases hcc : s.currentClass with
      | none =>
        refine ⟨?_, by simp [Option.toList, fallbackElemListOkB]⟩
        simp [fallbackElemListOkB_append, h1, fallbackElemListOkB, fallbackElemOkB_mk]
      | some c =>
        have hcok : fallbackElemOkB c = true := by
          rw [hcc] at h2
          simpa [Option.toList, fallbackElemListOkB] using h2
        by_cases hind : indent > s.currentIndent
        · simp only [hind, if_true]
          refine ⟨h1, ?_⟩
          simp [Option.toList, fallbackElemListOkB,
            fallbackElemOkB_withChildren c _ hcok (fallbackElemOkB_mk _ _ _ _)]
        · simp only [hind, if_false]
          refine ⟨?_, by simp [Option.toList, fallbackElemListOkB]⟩
          simp [fallbackElemListOkB_append, h1, fallbackElemListOkB, hcok,
            fallbackElemOkB_mk]

/-- The whole line handler preserves the C9 invariant (import/export
collection does not touch elements). -/
theorem regexLineStep_ok (fp lang : String) (s : RegexState) (x : Nat × String)
    (h1 : fallbackElemListOkB s.elements = true)
    (h2 : fallbackElemListOkB s.currentClass.toList = true) :
    fallbackElemListOkB (regexLineStep fp lang s x).elements = true ∧
    fallbackElemListOkB (regexLineStep fp lang s x).currentClass.toList = true := by
  unfold regexLineStep
  have hs1 : ∀ s1 : RegexState,
      fallbackElemListOkB s1.elements = true →
      fallbackElemListOkB s1.currentClass.toList = true →
      fallbackElemListOkB
        ((if strStarts (strTrim x.2) "export " then
            { (if strContains (strTrim x.2) "import " || strContains (strTrim x.2) "from "
                then { s1 with imports := s1.imports ++ [strTrim x.2] } else s1) with
              exports := (if strContains (strTrim x.2) "import " ||
                  strContains (strTrim x.2) "from " then
                  { s1 with imports := s1.imports ++ [strTrim x.2] } else s1).exports ++
                [strTrim x.2] }
          else (if strContains (strTrim x.2) "import " || strContains (strTrim x.2) "from "
                then { s1 with imports := s1.imports ++ [strTrim x.2] } else s1))).elements
        = true ∧
      fallbackElemListOkB
        ((if strStarts (strTrim x.2) "export " then
            { (if strContains (strTrim x.2) "import " || strContains (strTrim x.2) "from "
                then { s1 with imports := s1.imports ++ [strTrim x.2] } else s1) with
              exports := (if strContains (strTrim x.2) "import " ||
                  strContains (strTrim x.2) "from " then
                  { s1 with imports := s1.imports ++ [strTrim x.2] } else s1).exports ++
                [strTrim x.2] }
          else (if strContains (strTrim x.2) "import " || strContains (strTrim x.2) "from "
                then { s1 with imports := s1.imports ++ [strTrim x.2] } else s1))).currentClass.toList
        = true := by
    intro s1 g1 g2
    constructor <;> split <;> split <;> simpa
  by_cases hl : (lang = "typescript" || lang = "javascript") = true
  · simp only [hl, if_true]
    have := regexClassStep_ok fp (strTrim x.2) (searchNonWsAux 0 x.2.toList) x.1 s h1 h2
    have hm := regexMethodStep_ok fp (strTrim x.2) (searchNonWsAux 0 x.2.toList) x.1 _
      this.1 this.2
    exact hs1 _ hm.1 hm.2
  · simp only [hl, if_false]
    exact hs1 s h1 h2

/-- The C9 invariant survives the whole line fold. -/
theorem regexFold_ok (fp lang : String) :
    ∀ (l : List (Nat × String)) (s : RegexState),
      fallbackElemListOkB s.elements = true →
      fallbackElemListOkB s.currentClass.toList = true →
      fallbackElemListOkB (l.foldl (regexLineStep fp lang) s).elements = true ∧
      fallbackElemListOkB ((l.foldl (regexLineStep fp lang) s).currentClass.toList)
        = true := by
  intro l
  induction l with
  | nil => intro s h1 h2; exact ⟨h1, h2⟩
  | cons x t ih =>
    intro s h1 h2
    have := regexLineStep_ok fp lang s x h1 h2
    exact ih _ this.1 this.2

/-- **C9**: whatever the file content, the regex fallback is total (the Lean
rendering is a function into `FileAnalysis`) and every element it produces —
top-level ones and methods attached to a class alike — carries 1-based line
numbers with `endLine` equal to `startLine`. -/
theorem c9_regex_fallback_lines :
    ∀ (filePath content languageId : String),
      fallbackElemListOkB (analyzeFileRegex filePath content languageId).elements = true := by
  intro fp content lang
  unfold analyzeFileRegex
  have h := regexFold_ok fp lang ((jsSplit content '\n').enum)
    { elements := [], currentClass := none, currentIndent := 0, imports := [], exports := [] }
    rfl rfl
  simp only [fallbackElemListOkB_append]
  simp [h.1, h.2]

/-! ## Claim C7: grammar-path extraction invariants -/

/-- Elements minted by the declarator loop carry the outer declaration's
lines and no children. -/
theorem declaratorDig_shape (fp : String) (sl el2 : Nat) :
    ∀ (cs : SNodeList) (e : CodeElement),
      declaratorDig fp sl el2 cs = some e →
      e.children = [] ∧ e.line = sl ∧ e.endLine = el2
  | .nil, e, he => by simp [declaratorDig] at he
  | .cons c rest, e, he => by
    unfold declaratorDig at he
    by_cases hv : c.type = "variable_declarator"
    · simp only [hv, if_true] at he
      cases hn : childForFieldName c "name" with
      | none =>
        rw [hn] at he
        exact declaratorDig_shape fp sl el2 rest e he
      | some nameNode =>
        cases hv2 : childForFieldName c "value" with
        | none =>
          rw [hn, hv2] at he
          exact declaratorDig_shape fp sl el2 rest e he
        | some valueNode =>
          rw [hn, hv2] at he
          split at he <;> split at he <;>
            (simp only [Option.some.injEq] at he; subst he;
             exact ⟨rfl, rfl, rfl⟩)
    · simp only [hv, if_false] at he
      exact declaratorDig_shape fp sl el2 rest e he

mutual

/-- Every element `nodeToElement` emits has empty `children`. -/
theorem nodeToElement_children_nil : ∀ (node : SNode) (fp : String) (el : CodeElement),
    nodeToElement node fp = some el → el.children = []
  | .mk t f sRow eRow tx cs, fp, el, heq => by
    unfold nodeToElement at heq
    cases htm : typeMap t with
    | some elementType =>
      rw [htm] at heq
      simp only [Option.some.injEq] at heq
      subst heq
      rfl
    | none =>
      rw [htm] at heq
      by_cases hlex : (t = "lexical_declaration" || t = "variable_declaration") = true
      · simp only [hlex, if_true] at heq
        exact (declaratorDig_shape fp (sRow + 1) (eRow + 1) cs el heq).1
      · simp only [hlex, if_false] at heq
        by_cases hexp : t = "export_statement"
        · simp only [hexp, if_true] at heq
          exact exportDig_children_nil cs fp el heq
        · simp [hexp] at heq

/-- Every element the export loop emits has empty `children`. -/
theorem exportDig_children_nil : ∀ (cs : SNodeList) (fp : String) (el : CodeElement),
    exportDig fp cs = some el → el.children = []
  | .nil, fp, el, heq => by simp [exportDig] at heq
  | .cons c rest, fp, el, heq => by
    unfold exportDig at heq
    split at heq
    · exact nodeToElement_children_nil c fp el heq
    · exact exportDig_children_nil rest fp el heq

end

mutual

/-- On a well-formed tree, every element `nodeToElement` emits satisfies
`startLine ≤ endLine`. -/
theorem nodeToElement_le : ∀ (node : SNode) (fp : String) (el : CodeElement),
    SNode.wfB node = true → nodeToElement node fp = some el → el.line ≤ el.endLine
  | .mk t f sRow eRow tx cs, fp, el, hwf, heq => by
    have hrows : sRow ≤ eRow ∧ SNodeList.wfB cs = true := by
      simpa [SNode.wfB, Bool.and_eq_true] using hwf
    unfold nodeToElement at heq
    cases htm : typeMap t with
    | some elementType =>
      rw [htm] at heq
      simp only [Option.some.injEq] at heq
      subst heq
      simpa [CodeElement.line, CodeElement.endLine] using Nat.succ_le_succ hrows.1
    | none =>
      rw [htm] at heq
      by_cases hlex : (t = "lexical_declaration" || t = "variable_declaration") = true
      · simp only [hlex, if_true] at heq
        have := declaratorDig_shape fp (sRow + 1) (eRow + 1) cs el heq
        rw [this.2.1, this.2.2]
        exact Nat.succ_le_succ hrows.1
      · simp only [hlex, if_false] at heq
        by_cases hexp : t = "export_statement"
        · simp only [hexp, if_true] at heq
          exact exportDig_le cs fp el hrows.2 heq
        · simp [hexp] at heq

/-- On a well-formed child list, every element the export loop emits
satisfies `startLine ≤ endLine`. -/
theorem exportDig_le : ∀ (cs : SNodeList) (fp : String) (el : CodeElement),
    SNodeList.wfB cs = true → exportDig fp cs = some el → el.line ≤ el.endLine
  | .nil, fp, el, _, heq => by simp [exportDig] at heq
  | .cons c rest, fp, el, hwf, heq => by
    have h2 : SNode.wfB c = true ∧ SNodeList.wfB rest = true := by
      simpa [SNodeList.wfB, Bool.and_eq_true] using hwf
    unfold exportDig at heq
    split at heq
    · exact nodeToElement_le c fp el h2.1 heq
    · exact exportDig_le rest fp el h2.2 heq

end

/-- The C7 line predicate distributes over append. -/
theorem linesOkList_append : ∀ (a b : List CodeElement),
    CodeElement.linesOkList (a ++ b) =
      (CodeElement.linesOkList a && CodeElement.linesOkList b)
  | [], b => by simp [CodeElement.linesOkList]
  | el :: rest, b => by
    simp [CodeElement.linesOkList, linesOkList_append rest b, Bool.and_assoc]

/-- Element counting distributes over append. -/
theorem sizeList_append : ∀ (a b : List CodeElement),
    CodeElement.sizeList (a ++ b) = CodeElement.sizeList a + CodeElement.sizeList b
  | [], b => by simp [CodeElement.sizeList]
  | el :: rest, b => by
    simp [CodeElement.sizeList, sizeList_append rest b]
    omega

/-- A childless element counts as one. -/
theorem sizeE_of_children_nil (el : CodeElement) (h : el.children = []) :
    el.sizeE = 1 := by
  cases el with
  | mk t n f l e cs =>
    simp only [CodeElement.children] at h
    subst h
    rfl

/-- Refitting a class element with checked children keeps the line predicate. -/
theorem linesOkB_withChildren (el : CodeElement) (cs : List CodeElement)
    (h1 : el.line ≤ el.endLine) (h2 : CodeElement.linesOkList cs = true) :
    CodeElement.linesOkB (el.withChildren cs) = true := by
  cases el with
  | mk t n f l e cs0 =>
    simp only [CodeElement.line, CodeElement.endLine] at h1
    simp [CodeElement.withChildren, CodeElement.linesOkB, h1, h2]

/-- A childless line-ordered element satisfies the line predicate. -/
theorem linesOkB_of_shape (el : CodeElement) (h0 : el.children = [])
    (h1 : el.line ≤ el.endLine) : CodeElement.linesOkB el = true := by
  cases el with
  | mk t n f l e cs0 =>
    simp only [CodeElement.children] at h0
    subst h0
    simp only [CodeElement.line, CodeElement.endLine] at h1
    simp [CodeElement.linesOkB, CodeElement.linesOkList, h1]

/-- The class element refitted with children counts as one plus its children. -/
theorem sizeE_withChildren (el : CodeElement) (cs : List CodeElement) :
    (el.withChildren cs).sizeE = 1 + CodeElement.sizeList cs := by
  cases el with
  | mk t n f l e cs0 => rfl

mutual

/-- With no enclosing class nothing is ever attached. -/
theorem extractFrom_attach_nil : ∀ (pt : Option String) (fp : String) (node : SNode),
    (extractFrom false pt fp node).2 = []
  | pt, fp, .mk t f sRow eRow tx cs => by
    unfold extractFrom
    cases nodeToElement (.mk t f sRow eRow tx cs) fp with
    | none => exact extractFromList_attach_nil (some t) fp cs
    | some el =>
      by_cases hcls : el.type = CEKind.cls
      · simp [hcls]
      · simp [hcls, extractFromList_attach_nil (some t) fp cs]

/-- With no enclosing class nothing is ever attached (list form). -/
theorem extractFromList_attach_nil : ∀ (pt : Option String) (fp : String) (ns : SNodeList),
    (extractFromList false pt fp ns).2 = []
  | pt, fp, .nil => rfl
  | pt, fp, .cons n rest => by
    unfold extractFromList
    simp [extractFrom_attach_nil pt fp n, extractFromList_attach_nil pt fp rest]

end

mutual

/-- On a well-formed tree, every element the traversal puts anywhere — top
level or attached to the enclosing class — satisfies the line invariant,
nested children included. -/
theorem extractFrom_linesOk : ∀ (hp : Bool) (pt : Option String) (fp : String)
    (node : SNode), SNode.wfB node = true →
    CodeElement.linesOkList (extractFrom hp pt fp node).1 = true ∧
    CodeElement.linesOkList (extractFrom hp pt fp node).2 = true
  | hp, pt, fp, .mk t f sRow eRow tx cs, hwf => by
    have hrows : sRow ≤ eRow ∧ SNodeList.wfB cs = true := by
      simpa [SNode.wfB, Bool.and_eq_true] using hwf
    unfold extractFrom
    cases hne : nodeToElement (.mk t f sRow eRow tx cs) fp with
    | none => exact extractFromList_linesOk hp (some t) fp cs hrows.2
    | some el =>
      have hel0 := nodeToElement_children_nil _ fp el hne
      have hel1 := nodeToElement_le _ fp el hwf hne
      have hsub := extractFromList_linesOk true (some t) fp cs hrows.2
      have hsub2 := extractFromList_linesOk hp (some t) fp cs hrows.2
      by_cases hcls : el.type = CEKind.cls
      · simp only [hcls, if_true]
        have hok : CodeElement.linesOkB
            (el.withChildren (extractFromList true (some t) fp cs).2) = true :=
          linesOkB_withChildren el _ hel1 hsub.2
        by_cases hpm : (hp && isMethodNode pt t) = true
        · simp [hpm, CodeElement.linesOkList, hsub.1, hok]
        · simp [hpm, CodeElement.linesOkList, hsub.1, hok]
      · simp only [hcls, if_false]
        have hok : CodeElement.linesOkB el = true := linesOkB_of_shape el hel0 hel1
        by_cases hpm : (hp && isMethodNode pt t) = true
        · simp [hpm, CodeElement.linesOkList, hsub2.1, hsub2.2, hok]
        · simp [hpm, CodeElement.linesOkList, hsub2.1, hsub2.2, hok]

/-- List form of `extractFrom_linesOk`. -/
theorem extractFromList_linesOk : ∀ (hp : Bool) (pt : Option String) (fp : String)
    (ns : SNodeList), SNodeList.wfB ns = true →
    CodeElement.linesOkList (extractFromList hp pt fp ns).1 = true ∧
    CodeElement.linesOkList (extractFromList hp pt fp ns).2 = true
  | hp, pt, fp, .nil, _ => ⟨rfl, rfl⟩
  | hp, pt, fp, .cons n rest, hwf => by
    have h2 : SNode.wfB n = true ∧ SNodeList.wfB rest = true := by
      simpa [SNodeList.wfB, Bool.and_eq_true] using hwf
    have ha := extractFrom_linesOk hp pt fp n h2.1
    have hb := extractFromList_linesOk hp pt fp rest h2.2
    unfold extractFromList
    constructor <;> simp [linesOkList_append, ha.1, ha.2, hb.1, hb.2]

end

mutual

/-- No double counting: the traversal of a node yields, across its two output
lists (nested children included), exactly one element per syntax node that
`nodeToElement` maps to an element — so no node's element appears both under
a class's `children` and again at the top level. -/
theorem extractFrom_count : ∀ (hp : Bool) (pt : Option String) (fp : String)
    (node : SNode),
    CodeElement.sizeList (extractFrom hp pt fp node).1 +
      CodeElement.sizeList (extractFrom hp pt fp node).2 = emittableCount fp node
  | hp, pt, fp, .mk t f sRow eRow tx cs => by
    unfold extractFrom
    cases hne : nodeToElement (.mk t f sRow eRow tx cs) fp with
    | none =>
      have := extractFromList_count hp (some t) fp cs
      simp [emittableCount, hne, this]
    | some el =>
      have hel0 := nodeToElement_children_nil _ fp el hne
      have hone : el.sizeE = 1 := sizeE_of_children_nil el hel0
      by_cases hcls : el.type = CEKind.cls
      · simp only [hcls, if_true]
        have hsub := extractFromList_count true (some t) fp cs
        by_cases hpm : (hp && isMethodNode pt t) = true
        · simp only [hpm, if_true]
          simp [emittableCount, hne, CodeElement.sizeList, sizeE_withChildren]
          omega
        · simp only [hpm, if_false]
          simp [emittableCount, hne, CodeElement.sizeList, sizeE_withChildren]
          omega
      · simp only [hcls, if_false]
        have hsub := extractFromList_count hp (some t) fp cs
        by_cases hpm : (hp && isMethodNode pt t) = true
        · simp only [hpm, if_true]
          simp [emittableCount, hne, CodeElement.sizeList, hone]
          omega
        · simp only [hpm, if_false]
          simp [emittableCount, hne, CodeElement.sizeList, hone]
          omega

/-- List form of `extractFrom_count`. -/
theorem extractFromList_count : ∀ (hp : Bool) (pt : Option String) (fp : String)
    (ns : SNodeList),
    CodeElement.sizeList (extractFromList hp pt fp ns).1 +
      CodeElement.sizeList (extractFromList hp pt fp ns).2 = emittableCountList fp ns
  | hp, pt, fp, .nil => rfl
  | hp, pt, fp, .cons n rest => by
    have ha := extractFrom_count hp pt fp n
    have hb := extractFromList_count hp pt fp rest
    unfold extractFromList
    simp [sizeList_append, emittableCountList]
    omega

end

/-- **C7**: for every file analyzed through the grammar path with a
well-formed syntax tree (tree-sitter's `startRow ≤ endRow` on each node), the
resulting `FileAnalysis` satisfies `startLine ≤ endLine` on every element,
nested children included; and the extracted elements count exactly one per
emitting syntax node — descending into a class attaches its methods to the
class instead of promoting them, and never also emits them at the top level
(no double counting). -/
theorem c7_grammar_extraction :
    ∀ (root : SNode) (filePath languageId : String),
      SNode.wfB root = true →
      CodeElement.linesOkList (analyzeFileTS root filePath languageId).elements = true ∧
      CodeElement.sizeList (analyzeFileTS root filePath languageId).elements
        = emittableCount filePath root := by
  intro root fp lang hwf
  constructor
  · exact (extractFrom_linesOk false none fp root hwf).1
  · have hnil := extractFrom_attach_nil none fp root
    have hcount := extractFrom_count false none fp root
    rw [hnil] at hcount
    simpa [analyzeFileTS, extractElements, CodeElement.sizeList] using hcount

/-- Name-identifier node (fixture). -/
def c7Nm (s : String) : SNode := .mk "identifier" (some "name") 0 0 s .nil

/-- Method node spanning three rows (fixture). -/
def c7Method (s : String) (r : Nat) : SNode :=
  .mk "method_definition" none r (r + 2) "" (.ofList [c7Nm s])

/-- Class `Foo` with methods `bar` and `baz` (the spec's concrete scenario,
fixture). -/
def c7Class : SNode :=
  .mk "class_declaration" none 0 11 ""
    (.ofList [c7Nm "Foo",
      .mk "class_body" none 0 11 "" (.ofList [c7Method "bar" 4, c7Method "baz" 8])])

/-- Program root holding `c7Class` (fixture). -/
def c7Prog : SNode := .mk "program" none 0 11 "" (.ofList [c7Class])

/-- Closed instance of C7 on the spec's `class Foo { bar; baz }` scenario. -/
theorem c7_grammar_extraction_witness :
    SNode.wfB c7Prog = true ∧
    (CodeElement.linesOkList (analyzeFileTS c7Prog "a.ts" "typescript").elements = true ∧
      CodeElement.sizeList (analyzeFileTS c7Prog "a.ts" "typescript").elements
        = emittableCount "a.ts" c7Prog) ∧
    (analyzeFileTS c7Prog "a.ts" "typescript").elements =
      [.mk .cls "Foo" "a.ts" 1 12
        [.mk .method "bar" "a.ts" 5 7 [], .mk .method "baz" "a.ts" 9 11 []]] :=
  ⟨rfl, c7_grammar_extraction c7Prog "a.ts" "typescript" rfl, rfl⟩
